import Mathlib

/-!
The layered config store of serf (`trunk/config_store.c`).

A shallow embedding of `config_store.c` and the properties of its
specification.

Memory model.

The C code works on APR hash tables and C strings that live in APR pools and
are referred to by pointers.  Pointers are natural numbers, `0` is `NULL`.

* `Memory.hashes` holds every `apr_hash_t` object; the pointer `p + 1` refers
  to `hashes[p]`.  `apr_hash_make` appends a new, empty table, so a table that
  was just made never aliases an older one.
* `Memory.strings` holds every NUL-terminated string together with the pool
  that owns its storage; the pointer `p + 1` refers to `strings[p]`.
  `apr_pstrdup` appends a copy.  The content is `none` once the pool that owns
  the storage was destroyed: the pointer dangles.
* An APR hash table compares keys by the `klen` bytes the key pointer points
  to.  `apr_hash_key.str s` stands for the bytes of a string handed over with
  `APR_HASH_KEY_STRING`, `apr_hash_key.key k` for the
  `sizeof(serf_config_key_t)` bytes of the key integer `k`.
* Values of a hash table are `void *`: natural numbers again.
-/

namespace Serf

/-! ## APR -/

/-- Status codes of APR (`apr_errno.h`). -/
abbrev apr_status_t := Nat

/-- No error. -/
abbrev APR_SUCCESS : apr_status_t := 0

/-- The value of `EINVAL`. -/
abbrev APR_EINVAL : apr_status_t := 22

/-- The value `APR_OS_START_STATUS + 23`. -/
abbrev APR_ENOTIMPL : apr_status_t := 70023

/-- The bytes a hash table compares: a string key (`APR_HASH_KEY_STRING`) or
the bytes of one `serf_config_key_t`. -/
inductive apr_hash_key where
  | str (s : String)
  | key (k : Nat)
deriving DecidableEq, Repr

/-- The entries of one APR hash table, key bytes and `void *` value. -/
abbrev apr_hash_t := List (apr_hash_key × Nat)

/-- The value stored under `key` in a table, `NULL` when there is none. -/
def hash_find : apr_hash_t → apr_hash_key → Nat
  | [], _ => 0
  | (k, v) :: t, key => if k = key then v else hash_find t key

/-- The table without the entries of `key`. -/
def hash_remove (t : apr_hash_t) (key : apr_hash_key) : apr_hash_t :=
  t.filter (fun e => decide (e.1 ≠ key))

/-- The table after `apr_hash_set`: a `NULL` value deletes the entry, any
other value replaces it. -/
def hash_insert (t : apr_hash_t) (key : apr_hash_key) (val : Nat) : apr_hash_t :=
  if val = 0 then hash_remove t key else (key, val) :: hash_remove t key

/-- The hash tables and the strings of the process. -/
structure Memory where
  hashes : List apr_hash_t
  strings : List (Nat × Option String)
deriving DecidableEq, Repr

/-- The table a pointer refers to. -/
def Memory.hash (m : Memory) : Nat → apr_hash_t
  | 0 => []
  | p + 1 => m.hashes.getD p []

/-- The string a `char *` points to, `none` for `NULL`, for a pointer to no
string and for a pointer into a destroyed pool. -/
def Memory.deref (m : Memory) : Nat → Option String
  | 0 => none
  | p + 1 => (m.strings.get? p).bind Prod.snd

/-- The pool that owns the storage of the string a `char *` points to. -/
def Memory.owner (m : Memory) : Nat → Option Nat
  | 0 => none
  | p + 1 => (m.strings.get? p).map Prod.fst

/-- A pointer to a hash table of the memory. -/
def Memory.valid_hash (m : Memory) (p : Nat) : Prop :=
  0 < p ∧ p ≤ m.hashes.length

instance (m : Memory) (p : Nat) : Decidable (m.valid_hash p) := by
  unfold Memory.valid_hash; infer_instance

/-- The call `apr_hash_make(pool)`: a new, empty table.  No function of
`config_store.c` destroys a pool that holds a table, so the owning pool of a
table is not recorded. -/
def apr_hash_make (m : Memory) (_pool : Nat) : Memory × Nat :=
  ({ m with hashes := m.hashes ++ [[]] }, m.hashes.length + 1)

/-- The call `apr_hash_get(ht, key, klen)`. -/
def apr_hash_get (m : Memory) (ht : Nat) (key : apr_hash_key) : Nat :=
  hash_find (m.hash ht) key

/-- The call `apr_hash_set(ht, key, klen, val)`. -/
def apr_hash_set (m : Memory) (ht : Nat) (key : apr_hash_key) (val : Nat) : Memory :=
  match ht with
  | 0 => m
  | p + 1 => { m with hashes := m.hashes.set p (hash_insert (m.hashes.getD p []) key val) }

/-- The call `apr_pstrdup(pool, s)`: `NULL` for `NULL`, else a copy of the
string in storage of `pool`. -/
def apr_pstrdup (m : Memory) (pool : Nat) (s : Nat) : Memory × Nat :=
  match m.deref s with
  | none => (m, 0)
  | some str => ({ m with strings := m.strings ++ [(pool, some str)] }, m.strings.length + 1)

/-- The call `apr_pstrdup(pool, s)` for a string `s` that is not in the
modelled memory but given by its content (a field of the connection, or the
string printed in the temporary pool): a copy in storage of `pool`. -/
def apr_pstrdup_content (m : Memory) (pool : Nat) (str : String) : Memory × Nat :=
  ({ m with strings := m.strings ++ [(pool, some str)] }, m.strings.length + 1)

/-- The call `apr_pool_destroy(pool)` for a pool that holds strings only, as
the pool of a view or of a caller: every string in storage of the pool is
gone.  Hash tables live in the pool of the store, which is destroyed with the
session. -/
def apr_pool_destroy (m : Memory) (pool : Nat) : Memory :=
  { m with strings := m.strings.map (fun c => if c.1 = pool then (c.1, none) else c) }

/-- The caller overwrites the buffer that `p` points to with the string
`s`. -/
def Memory.overwrite (m : Memory) (p : Nat) (s : String) : Memory :=
  match p with
  | 0 => m
  | q + 1 =>
    match m.strings.get? q with
    | none => m
    | some c => { m with strings := m.strings.set q (c.1, some s) }

/-- The digits of `n` in base 16, lower case, most significant first, as
`%x` prints them; `fuel` digits at most. -/
def hex_digits : Nat → Nat → List Char
  | 0, _ => []
  | fuel + 1, n =>
    if n < 16 then [Nat.digitChar n]
    else hex_digits fuel (n / 16) ++ [Nat.digitChar (n % 16)]

/-- The call `apr_psprintf(pool, "%x", n)` for an `unsigned int` of 32 bits:
eight digits at most. -/
def apr_psprintf_x (n : Nat) : String :=
  String.mk (hex_digits 8 n)

/-! ## Declarations of `serf.h` and `serf_private.h` -/

/-- Modelled from the spec: the category bits `SERF_CONFIG_PER_CONTEXT`,
`SERF_CONFIG_PER_HOST`, `SERF_CONFIG_PER_CONNECTION` and the flag
`SERF_CONFIG_COPY_VALUE` are defined in `serf.h`, which is missing.  The
functions take them as a parameter. -/
structure serf_h where
  SERF_CONFIG_PER_CONTEXT : Nat
  SERF_CONFIG_PER_HOST : Nat
  SERF_CONFIG_PER_CONNECTION : Nat
  SERF_CONFIG_COPY_VALUE : Nat
deriving DecidableEq, Repr

/-- Modelled from the spec: `serf_connection_t` is declared in
`serf_private.h`, which is missing.  `addr` is the address of the connection
object (the value of a `serf_connection_t *`), `host_url` its canonical host
identity `scheme://host:port`. -/
structure serf_connection_t where
  addr : Nat
  host_url : String
deriving DecidableEq, Repr

/-- The struct `serf__config_store_t`: a pool and three pointers to hash
tables. -/
structure serf__config_store_t where
  pool : Nat
  per_context : Nat
  per_host : Nat
  per_conn : Nat
deriving DecidableEq, Repr

/-- The fields of `serf_context_t` that `config_store.c` uses. -/
structure serf_context_t where
  pool : Nat
  config_store : serf__config_store_t
deriving DecidableEq, Repr

/-- The struct `serf_config_t`, a view: a pool and three pointers to
namespaces, `NULL` when the view has none. -/
structure serf_config_t where
  pool : Nat
  per_context : Nat
  per_host : Nat
  per_conn : Nat
deriving DecidableEq, Repr

/-! ## `config_store.c` -/

/-- The key constant `serf_config_host_name`. -/
def serf_config_host_name (H : serf_h) : Nat :=
  H.SERF_CONFIG_PER_HOST ||| 0x000001

/-- The key constant `serf_config_host_port`. -/
def serf_config_host_port (H : serf_h) : Nat :=
  H.SERF_CONFIG_PER_HOST ||| 0x000002

/-- The function `serf__init_config_store`: three new tables, and the status
`APR_ENOTIMPL`. -/
def serf__init_config_store (m : Memory) (ctx : serf_context_t) :
    apr_status_t × serf_context_t × Memory :=
  let pool := ctx.pool
  let r1 := apr_hash_make m pool
  let r2 := apr_hash_make r1.1 pool
  let r3 := apr_hash_make r2.1 pool
  (APR_ENOTIMPL,
   { ctx with config_store :=
      { pool := pool, per_context := r1.2, per_host := r2.2, per_conn := r3.2 } },
   r3.1)

/-- The function `host_key_for_conn`. -/
def host_key_for_conn (conn : serf_connection_t) : String :=
  conn.host_url

/-- The function `conn_key_for_conn`: the pointer is cast to `unsigned int`
(32 bits) and printed with `%x`. -/
def conn_key_for_conn (conn : serf_connection_t) : String :=
  apr_psprintf_x (conn.addr % 2 ^ 32)

/-- The function `serf_get_config_from_store`.  `conn = none` is the `NULL`
connection.  `pool_status` is what `apr_pool_create` returns for the temporary
pool; the key string made in that pool is gone when the pool is destroyed at
the end, so it leaves no trace in the memory.  When a namespace is made, the
key under which it is entered is copied into the pool of the store
(`apr_pstrdup(config_store->pool, key)`).  The second component is `*config`,
`none` when the function returns before it is assigned. -/
def serf_get_config_from_store (m : Memory) (ctx : serf_context_t)
    (conn : Option serf_connection_t) (out_pool : Nat) (pool_status : apr_status_t) :
    apr_status_t × Option serf_config_t × Memory :=
  let config_store := ctx.config_store
  let cfg : serf_config_t :=
    { pool := out_pool, per_context := config_store.per_context, per_host := 0, per_conn := 0 }
  match conn with
  | none => (APR_SUCCESS, some cfg, m)
  | some c =>
    if pool_status ≠ APR_SUCCESS then (pool_status, none, m)
    else
      let conn_key := conn_key_for_conn c
      let found_conn := apr_hash_get m config_store.per_conn (.str conn_key)
      let rc : Memory × Nat :=
        if found_conn = 0 then
          let made := apr_hash_make m config_store.pool
          let copy := apr_pstrdup_content made.1 config_store.pool conn_key
          (apr_hash_set copy.1 config_store.per_conn (.str conn_key) made.2, made.2)
        else (m, found_conn)
      let host_key := host_key_for_conn c
      let found_host := apr_hash_get rc.1 config_store.per_host (.str host_key)
      let rh : Memory × Nat :=
        if found_host = 0 then
          let made := apr_hash_make rc.1 config_store.pool
          let copy := apr_pstrdup_content made.1 config_store.pool host_key
          (apr_hash_set copy.1 config_store.per_host (.str host_key) made.2, made.2)
        else (rc.1, found_host)
      (APR_SUCCESS, some { cfg with per_conn := rc.2, per_host := rh.2 }, rh.1)

/-- The function `serf__remove_host_from_config_store`: it only returns
`APR_ENOTIMPL`. -/
def serf__remove_host_from_config_store (_config_store : serf__config_store_t)
    (_hostname_port : String) : apr_status_t :=
  APR_ENOTIMPL

/-- The function `serf_set_config_string`.  `key` is the integer the key
pointer points to (`keyint = *key`); the table compares the bytes of that
integer. -/
def serf_set_config_string (H : serf_h) (m : Memory) (config : serf_config_t)
    (key : Nat) (value : Nat) (copy_flags : Nat) : apr_status_t × Memory :=
  let keyint := key
  let copied : Memory × Nat :=
    if copy_flags &&& H.SERF_CONFIG_COPY_VALUE ≠ 0 then apr_pstrdup m config.pool value
    else (m, value)
  let target :=
    if keyint &&& H.SERF_CONFIG_PER_CONTEXT ≠ 0 then config.per_context
    else if keyint &&& H.SERF_CONFIG_PER_HOST ≠ 0 then config.per_host
    else config.per_conn
  if target = 0 then (APR_EINVAL, copied.1)
  else (APR_SUCCESS, apr_hash_set copied.1 target (.key keyint) copied.2)

/-- The function `serf_set_config_object`: it only returns `APR_ENOTIMPL`. -/
def serf_set_config_object (_config : serf_config_t) (_key : Nat) (_value : Nat)
    (_len : Nat) (_copy_flags : Nat) : apr_status_t :=
  APR_ENOTIMPL

/-- The function `serf_get_config_string`; the second component is
`*value`. -/
def serf_get_config_string (H : serf_h) (m : Memory) (config : serf_config_t)
    (key : Nat) : apr_status_t × Nat :=
  let keyint := key
  let target :=
    if keyint &&& H.SERF_CONFIG_PER_CONTEXT ≠ 0 then config.per_context
    else if keyint &&& H.SERF_CONFIG_PER_HOST ≠ 0 then config.per_host
    else config.per_conn
  if target = 0 then (APR_EINVAL, 0)
  else (APR_SUCCESS, apr_hash_get m target (.key keyint))

/-- The function `serf_get_config_string` with everything it can reach through
its pointer arguments made explicit: the memory, the struct `*config` and the
variable `*value`, whose content before the call is `value`.  The result is
the status, the memory, the struct `*config` and the variable `*value` after
the call.  The body reads `*key` and the three references of `*config`, calls
`apr_hash_get`, which only reads the table, and assigns to its local `target`
and to `*value`. -/
def serf_get_config_string_st (H : serf_h) (m : Memory) (config : serf_config_t)
    (key : Nat) (_value : Nat) : apr_status_t × Memory × serf_config_t × Nat :=
  let keyint := key
  let target :=
    if keyint &&& H.SERF_CONFIG_PER_CONTEXT ≠ 0 then config.per_context
    else if keyint &&& H.SERF_CONFIG_PER_HOST ≠ 0 then config.per_host
    else config.per_conn
  if target = 0 then (APR_EINVAL, m, config, 0)
  else (APR_SUCCESS, m, config, apr_hash_get m target (.key keyint))

/-- The function `serf_remove_config_value`: it only returns `APR_ENOTIMPL`. -/
def serf_remove_config_value (_config : serf_config_t) (_key : Nat) : apr_status_t :=
  APR_ENOTIMPL

/-! ## Notions of the specification -/

/-- The step `serf_get_config_from_store` does twice: the namespace stored
under `key` in the index table `idx`, made and entered, under a copy of the
key in storage of `pool`, when there is none. -/
def find_or_make (m : Memory) (pool idx : Nat) (key : String) : Memory × Nat :=
  let found := apr_hash_get m idx (.str key)
  if found = 0 then
    let made := apr_hash_make m pool
    let copy := apr_pstrdup_content made.1 pool key
    (apr_hash_set copy.1 idx (.str key) made.2, made.2)
  else (m, found)

/-- The namespace pointer that the scope bits of a key select in a view: the
if-chain of `serf_set_config_string` and `serf_get_config_string`. -/
def routed (H : serf_h) (config : serf_config_t) (key : Nat) : Nat :=
  if key &&& H.SERF_CONFIG_PER_CONTEXT ≠ 0 then config.per_context
  else if key &&& H.SERF_CONFIG_PER_HOST ≠ 0 then config.per_host
  else config.per_conn

/-- The three scopes of the specification. -/
inductive ScopeTag where
  | Context
  | PerHost
  | PerConnection
deriving DecidableEq, Repr

/-- A key descriptor tagged with exactly one scope: the bits of that category
are set in the key, the bits of the other two are not. -/
def tagged (H : serf_h) (key : Nat) : ScopeTag → Prop
  | .Context => key &&& H.SERF_CONFIG_PER_CONTEXT ≠ 0 ∧ key &&& H.SERF_CONFIG_PER_HOST = 0 ∧
      key &&& H.SERF_CONFIG_PER_CONNECTION = 0
  | .PerHost => key &&& H.SERF_CONFIG_PER_CONTEXT = 0 ∧ key &&& H.SERF_CONFIG_PER_HOST ≠ 0 ∧
      key &&& H.SERF_CONFIG_PER_CONNECTION = 0
  | .PerConnection => key &&& H.SERF_CONFIG_PER_CONTEXT = 0 ∧
      key &&& H.SERF_CONFIG_PER_HOST = 0 ∧ key &&& H.SERF_CONFIG_PER_CONNECTION ≠ 0

instance (H : serf_h) (key : Nat) (tag : ScopeTag) : Decidable (tagged H key tag) := by
  cases tag <;> unfold tagged <;> infer_instance

/-- The namespace pointers entered in an index table. -/
def index_values (m : Memory) (idx : Nat) : List Nat :=
  (m.hash idx).map Prod.snd

/-- The host and connection namespaces of a store. -/
def namespaces (m : Memory) (s : serf__config_store_t) : List Nat :=
  index_values m s.per_host ++ index_values m s.per_conn

/-- A namespace of the store: the context namespace, a host namespace or a
connection namespace. -/
def is_namespace (m : Memory) (s : serf__config_store_t) (p : Nat) : Prop :=
  p = s.per_context ∨ p ∈ namespaces m s

/-- A well-formed store: its three tables exist and are three different
objects, every namespace entered in an index exists and is none of the three,
and no namespace is entered twice.  `serf__init_config_store` establishes this
and every function of the file keeps it. -/
def WF (m : Memory) (s : serf__config_store_t) : Prop :=
  m.valid_hash s.per_context ∧ m.valid_hash s.per_host ∧ m.valid_hash s.per_conn ∧
  s.per_context ≠ s.per_host ∧ s.per_context ≠ s.per_conn ∧ s.per_host ≠ s.per_conn ∧
  (∀ p ∈ namespaces m s,
    m.valid_hash p ∧ p ≠ s.per_context ∧ p ≠ s.per_host ∧ p ≠ s.per_conn) ∧
  (namespaces m s).Nodup

instance (m : Memory) (s : serf__config_store_t) : Decidable (WF m s) := by
  unfold WF; infer_instance

/-- A view of the store: its context reference is the context namespace of the
store, its host reference is unset or a namespace of the host index, its
connection reference is unset or a namespace of the connection index.  Every
view that `serf_get_config_from_store` returns is one, and stays one. -/
def IsView (m : Memory) (s : serf__config_store_t) (cfg : serf_config_t) : Prop :=
  cfg.per_context = s.per_context ∧
  (cfg.per_host = 0 ∨ cfg.per_host ∈ index_values m s.per_host) ∧
  (cfg.per_conn = 0 ∨ cfg.per_conn ∈ index_values m s.per_conn)

instance (m : Memory) (s : serf__config_store_t) (cfg : serf_config_t) :
    Decidable (IsView m s cfg) := by
  unfold IsView; infer_instance

/-- One operation of a client on the store, a call of one of the functions of
`config_store.c` that take a store or a view: resolving a view, setting or
getting a value through the view it resolved as number `view`, and the four
functions that only return `APR_ENOTIMPL`. -/
inductive Op where
  | resolve (conn : Option serf_connection_t) (out_pool : Nat) (pool_status : apr_status_t)
  | set (view key value copy_flags : Nat)
  | get (view key : Nat)
  | remove_connection (conn : serf_connection_t)
  | remove_host (hostname_port : String)
  | set_object (view key value len copy_flags : Nat)
  | remove_value (view key : Nat)
deriving DecidableEq, Repr

/-- A client of the store: the memory and the views resolved so far. -/
structure Client where
  mem : Memory
  views : List serf_config_t
deriving DecidableEq, Repr

/-- The effect of one operation: the memory and the views after the call.  A
get leaves behind what `serf_get_config_string_st` leaves of the memory and of
the view; the four functions that only return `APR_ENOTIMPL` have no
effect. -/
def Client.step (H : serf_h) (ctx : serf_context_t) (cl : Client) : Op → Client
  | .resolve conn out_pool pool_status =>
    let r := serf_get_config_from_store cl.mem ctx conn out_pool pool_status
    match r.2.1 with
    | some cfg => { mem := r.2.2, views := cl.views ++ [cfg] }
    | none => { mem := r.2.2, views := cl.views }
  | .set view key value copy_flags =>
    match cl.views.get? view with
    | some cfg =>
      { mem := (serf_set_config_string H cl.mem cfg key value copy_flags).2, views := cl.views }
    | none => cl
  | .get view key =>
    match cl.views.get? view with
    | some cfg =>
      let r := serf_get_config_string_st H cl.mem cfg key 0
      { mem := r.2.1, views := cl.views.set view r.2.2.1 }
    | none => cl
  | .remove_connection _ => cl
  | .remove_host _ => cl
  | .set_object _ _ _ _ _ => cl
  | .remove_value _ _ => cl

/-- The effect of a sequence of operations. -/
def Client.run (H : serf_h) (ctx : serf_context_t) (cl : Client) (ops : List Op) : Client :=
  ops.foldl (Client.step H ctx) cl

/-- The category bits and the copy flag used in the examples. -/
def H0 : serf_h :=
  { SERF_CONFIG_PER_CONTEXT := 0x10000000, SERF_CONFIG_PER_HOST := 0x20000000,
    SERF_CONFIG_PER_CONNECTION := 0x40000000, SERF_CONFIG_COPY_VALUE := 0x02 }

/-- An example memory: a store set up by `serf__init_config_store` and two
strings of the caller. -/
def m0 : Memory :=
  { hashes := [[], [], []], strings := [(7, some "443"), (7, some "v1")] }

/-- The context of the example store. -/
def ctx0 : serf_context_t :=
  { pool := 1, config_store := { pool := 1, per_context := 1, per_host := 2, per_conn := 3 } }

/-- Two example connections to one host. -/
def connA : serf_connection_t := { addr := 0x1000, host_url := "http://x:80" }

/-- The second example connection. -/
def connB : serf_connection_t := { addr := 0x2000, host_url := "http://x:80" }

/-- The view that `serf_get_config_from_store` returns for `connA` on the
example store. -/
def cfgA : serf_config_t :=
  { pool := 9, per_context := 1, per_host := 5, per_conn := 4 }

/-- The example memory after the view of `connA` was resolved: two namespaces
were made and entered, and their keys copied into the pool `1` of the
store. -/
def m1A : Memory :=
  { hashes := [[], [(.str "http://x:80", 5)], [(.str "1000", 4)], [], []],
    strings := [(7, some "443"), (7, some "v1"), (1, some "1000"),
                (1, some "http://x:80")] }

/-- The view that `serf_get_config_from_store` returns for no connection on
the example store. -/
def cfgN : serf_config_t :=
  { pool := 9, per_context := 1, per_host := 0, per_conn := 0 }

/-- Example operations of a client: a view for `connB`, a PerHost value set
through the first view of the client, a PerConnection value set through the
second, a get, a call of `serf__remove_connection_from_config_store` for
`connA`, and a view for no connection. -/
def opsA : List Op :=
  [.resolve (some connB) 11 APR_SUCCESS, .set 0 (serf_config_host_port H0) 1 2,
   .set 1 0x40000001 2 0, .get 0 (serf_config_host_port H0), .remove_connection connA,
   .resolve none 12 APR_SUCCESS]

/-- The index table `idx` holds in `m2` the entries it holds in `m`, or these
and one more: an entry under a key that had none, for a namespace that is not
a table of `m` and is empty in `m2`. -/
def same_or_new_entry (m m2 : Memory) (idx : Nat) : Prop :=
  m2.hash idx = m.hash idx ∨
  ∃ key p, (∀ e ∈ m.hash idx, e.1 ≠ key) ∧ ¬ m.valid_hash p ∧ m2.valid_hash p ∧
    m2.hash p = [] ∧ m2.hash idx = (key, p) :: m.hash idx

/-- A second example connection object at an address that differs from the
address of `connA` in the upper 32 bits only, to another host. -/
def connC : serf_connection_t := { addr := 0x100001000, host_url := "http://y:80" }

/-- The view that `serf_get_config_from_store` returns for `connC` on the
example store after the view of `connA` was resolved. -/
def cfgC : serf_config_t :=
  { pool := 10, per_context := 1, per_host := 6, per_conn := 4 }

/-- The value of a hexadecimal digit as `%x` prints it. -/
def hex_digit_value (c : Char) : Nat :=
  if 97 ≤ c.toNat then c.toNat - 87 else c.toNat - 48

/-- The number that a list of hexadecimal digits denotes, most significant
digit first. -/
def hex_value (l : List Char) : Nat :=
  l.foldl (fun acc c => 16 * acc + hex_digit_value c) 0

/-- The reference of a view to the namespace of a scope. -/
def scope_ref (config : serf_config_t) : ScopeTag → Nat
  | .Context => config.per_context
  | .PerHost => config.per_host
  | .PerConnection => config.per_conn

/-- A key descriptor with none of the three scope tags set. -/
def untagged (H : serf_h) (key : Nat) : Prop :=
  key &&& H.SERF_CONFIG_PER_CONTEXT = 0 ∧ key &&& H.SERF_CONFIG_PER_HOST = 0 ∧
    key &&& H.SERF_CONFIG_PER_CONNECTION = 0

instance (H : serf_h) (key : Nat) : Decidable (untagged H key) := by
  unfold untagged; infer_instance

/-- The number of entries of a table under a key. -/
def hash_count (t : apr_hash_t) (key : apr_hash_key) : Nat :=
  (t.filter (fun e => decide (e.1 = key))).length

/-- The example memory after the PerConnection key `0x40000001` was set to
`"v1"`, with the copy flag, through the view of `connA`. -/
def m2A : Memory :=
  (serf_set_config_string H0 m1A cfgA 0x40000001 2 2).2

/-- The view that `serf_get_config_from_store` returns for `connA` with the
pool `10` on the example store once the namespaces of `connA` exist. -/
def cfgA2 : serf_config_t :=
  { pool := 10, per_context := 1, per_host := 5, per_conn := 4 }

/-- The strings of `m2` are the strings of `m`, as they are, and after them
new strings in storage of `pool`. -/
def new_strings_in (m m2 : Memory) (pool : Nat) : Prop :=
  ∃ l, m2.strings = m.strings ++ l ∧ ∀ c ∈ l, c.1 = pool

/-- The view that `serf_get_config_from_store` returns for `connB` with the
pool `10` on the example store after the view of `connA` was resolved: the
host namespace of `connA`, and a connection namespace of its own. -/
def cfgB : serf_config_t :=
  { pool := 10, per_context := 1, per_host := 5, per_conn := 6 }

/-- A third example connection, to a host of its own. -/
def connD : serf_connection_t := { addr := 0x3000, host_url := "http://z:80" }

/-- The index tables of the store only grow from `m` to `m2`: no table is
lost, and what is entered under a host or connection identity stays entered. -/
def Grows (s : serf__config_store_t) (m m2 : Memory) : Prop :=
  m.hashes.length ≤ m2.hashes.length ∧
  (∀ k, hash_find (m.hash s.per_host) k ≠ 0 →
    hash_find (m2.hash s.per_host) k = hash_find (m.hash s.per_host) k) ∧
  (∀ k, hash_find (m.hash s.per_conn) k ≠ 0 →
    hash_find (m2.hash s.per_conn) k = hash_find (m.hash s.per_conn) k) ∧
  (∀ p ∈ index_values m s.per_host, p ∈ index_values m2 s.per_host) ∧
  (∀ p ∈ index_values m s.per_conn, p ∈ index_values m2 s.per_conn)

/-! ## Lemmas on hash tables and the memory -/

theorem hash_find_cons_self (t : apr_hash_t) (k : apr_hash_key) (v : Nat) :
    hash_find ((k, v) :: t) k = v := by
  simp [hash_find]

theorem hash_find_cons_ne (t : apr_hash_t) (k1 k : apr_hash_key) (v : Nat) (h : k1 ≠ k) :
    hash_find ((k1, v) :: t) k = hash_find t k := by
  simp [hash_find, h]

theorem hash_remove_cons_self (t : apr_hash_t) (k : apr_hash_key) (v : Nat) :
    hash_remove ((k, v) :: t) k = hash_remove t k := by
  simp [hash_remove]

theorem hash_remove_cons_ne (t : apr_hash_t) (k1 k : apr_hash_key) (v : Nat) (h : k1 ≠ k) :
    hash_remove ((k1, v) :: t) k = (k1, v) :: hash_remove t k := by
  simp [hash_remove, h]

theorem hash_find_remove_self (t : apr_hash_t) (k : apr_hash_key) :
    hash_find (hash_remove t k) k = 0 := by
  induction t with
  | nil => rfl
  | cons e t ih =>
    obtain ⟨k1, v1⟩ := e
    by_cases h : k1 = k
    · subst h; rw [hash_remove_cons_self]; exact ih
    · rw [hash_remove_cons_ne t k1 k v1 h, hash_find_cons_ne _ k1 k v1 h]; exact ih

theorem hash_find_remove_ne (t : apr_hash_t) (k k2 : apr_hash_key) (hne : k2 ≠ k) :
    hash_find (hash_remove t k) k2 = hash_find t k2 := by
  induction t with
  | nil => rfl
  | cons e t ih =>
    obtain ⟨k1, v1⟩ := e
    by_cases h : k1 = k
    · subst h
      rw [hash_remove_cons_self, hash_find_cons_ne _ k1 k2 v1 (Ne.symm hne)]; exact ih
    · rw [hash_remove_cons_ne t k1 k v1 h]
      by_cases h2 : k1 = k2
      · subst h2; rw [hash_find_cons_self, hash_find_cons_self]
      · rw [hash_find_cons_ne _ k1 k2 v1 h2, hash_find_cons_ne _ k1 k2 v1 h2]; exact ih

theorem hash_find_insert_self (t : apr_hash_t) (k : apr_hash_key) (v : Nat) :
    hash_find (hash_insert t k v) k = v := by
  unfold hash_insert
  split
  · rename_i h
    rw [hash_find_remove_self, h]
  · rw [hash_find_cons_self]

theorem hash_find_insert_ne (t : apr_hash_t) (k k2 : apr_hash_key) (v : Nat) (hne : k2 ≠ k) :
    hash_find (hash_insert t k v) k2 = hash_find t k2 := by
  unfold hash_insert
  split
  · exact hash_find_remove_ne t k k2 hne
  · rw [hash_find_cons_ne _ k k2 v (Ne.symm hne)]; exact hash_find_remove_ne t k k2 hne

theorem hash_find_mem (t : apr_hash_t) (k : apr_hash_key) (h : hash_find t k ≠ 0) :
    hash_find t k ∈ t.map Prod.snd := by
  induction t with
  | nil => exact absurd rfl h
  | cons e t ih =>
    obtain ⟨k1, v1⟩ := e
    by_cases h1 : k1 = k
    · subst h1; rw [hash_find_cons_self]; simp
    · rw [hash_find_cons_ne _ k1 k v1 h1] at h ⊢
      simp only [List.map_cons, List.mem_cons]
      exact Or.inr (ih h)

theorem hash_remove_of_find_null (t : apr_hash_t) (k : apr_hash_key)
    (hv : ∀ p ∈ t.map Prod.snd, p ≠ 0) (h : hash_find t k = 0) : hash_remove t k = t := by
  induction t with
  | nil => rfl
  | cons e t ih =>
    obtain ⟨k1, v1⟩ := e
    have hv1 : v1 ≠ 0 := hv v1 (by simp)
    have hvt : ∀ p ∈ t.map Prod.snd, p ≠ 0 := fun p hp =>
      hv p (by simp only [List.map_cons, List.mem_cons]; exact Or.inr hp)
    by_cases h1 : k1 = k
    · subst h1; rw [hash_find_cons_self] at h
      exact absurd h hv1
    · rw [hash_find_cons_ne _ k1 k v1 h1] at h
      rw [hash_remove_cons_ne t k1 k v1 h1, ih hvt h]

theorem hash_of_valid (m : Memory) (p : Nat) (h : 0 < p) :
    m.hash p = m.hashes.getD (p - 1) [] := by
  cases p with
  | zero => exact absurd h (by decide)
  | succ q => rfl

theorem apr_hash_make_strings (m : Memory) (pool : Nat) :
    (apr_hash_make m pool).1.strings = m.strings := rfl

theorem apr_hash_make_length (m : Memory) (pool : Nat) :
    (apr_hash_make m pool).1.hashes.length = m.hashes.length + 1 := by
  simp [apr_hash_make]

theorem apr_hash_make_ptr (m : Memory) (pool : Nat) :
    (apr_hash_make m pool).2 = m.hashes.length + 1 := rfl

theorem apr_hash_make_hash_old (m : Memory) (pool p : Nat) (h : p ≤ m.hashes.length) :
    (apr_hash_make m pool).1.hash p = m.hash p := by
  cases p with
  | zero => rfl
  | succ q =>
    have hq : q < m.hashes.length := h
    simp [apr_hash_make, Memory.hash, List.getD_eq_getElem?_getD, List.getElem?_append_left hq]

theorem apr_hash_make_hash_new (m : Memory) (pool : Nat) :
    (apr_hash_make m pool).1.hash (m.hashes.length + 1) = [] := by
  simp [apr_hash_make, Memory.hash, List.getD_eq_getElem?_getD]

theorem apr_hash_set_strings (m : Memory) (ht : Nat) (k : apr_hash_key) (v : Nat) :
    (apr_hash_set m ht k v).strings = m.strings := by
  cases ht <;> rfl

theorem apr_hash_set_length (m : Memory) (ht : Nat) (k : apr_hash_key) (v : Nat) :
    (apr_hash_set m ht k v).hashes.length = m.hashes.length := by
  cases ht <;> simp [apr_hash_set]

theorem apr_hash_set_hash_self (m : Memory) (ht : Nat) (k : apr_hash_key) (v : Nat)
    (h : m.valid_hash ht) :
    (apr_hash_set m ht k v).hash ht = hash_insert (m.hash ht) k v := by
  obtain ⟨h0, h1⟩ := h
  cases ht with
  | zero => exact absurd h0 (by decide)
  | succ q =>
    have hq : q < m.hashes.length := h1
    simp [apr_hash_set, Memory.hash, List.getD_eq_getElem?_getD, hq]

theorem apr_hash_set_hash_other (m : Memory) (ht p : Nat) (k : apr_hash_key) (v : Nat)
    (h : p ≠ ht) :
    (apr_hash_set m ht k v).hash p = m.hash p := by
  cases ht with
  | zero => rfl
  | succ q =>
    cases p with
    | zero => rfl
    | succ r =>
      have hne : q ≠ r := fun e => h (by rw [e])
      simp [apr_hash_set, Memory.hash, List.getD_eq_getElem?_getD, List.getElem?_set_ne hne]

theorem valid_hash_make (m : Memory) (pool p : Nat) (h : m.valid_hash p) :
    (apr_hash_make m pool).1.valid_hash p := by
  obtain ⟨h0, h1⟩ := h
  refine ⟨h0, ?_⟩
  rw [apr_hash_make_length]; omega

/-- The step finds the namespace that is entered under the key and leaves the
memory alone. -/
theorem find_or_make_found (m : Memory) (pool idx : Nat) (key : String)
    (h : hash_find (m.hash idx) (.str key) ≠ 0) :
    find_or_make m pool idx key = (m, hash_find (m.hash idx) (.str key)) := by
  unfold find_or_make apr_hash_get
  simp only [h, if_false]

theorem apr_pstrdup_content_hash (m : Memory) (pool p : Nat) (str : String) :
    (apr_pstrdup_content m pool str).1.hash p = m.hash p := by
  cases p <;> rfl

theorem apr_pstrdup_content_valid (m : Memory) (pool p : Nat) (str : String)
    (h : m.valid_hash p) : (apr_pstrdup_content m pool str).1.valid_hash p := h

/-- The step makes a namespace when none is entered under the key, and copies
the key into storage of the pool. -/
theorem find_or_make_made (m : Memory) (pool idx : Nat) (key : String)
    (hv : m.valid_hash idx) (hnz : ∀ p ∈ index_values m idx, p ≠ 0)
    (h : hash_find (m.hash idx) (.str key) = 0) :
    (find_or_make m pool idx key).2 = m.hashes.length + 1 ∧
    (find_or_make m pool idx key).1.hashes.length = m.hashes.length + 1 ∧
    (find_or_make m pool idx key).1.strings = m.strings ++ [(pool, some key)] ∧
    (find_or_make m pool idx key).1.hash idx =
      (.str key, m.hashes.length + 1) :: m.hash idx ∧
    (find_or_make m pool idx key).1.hash (m.hashes.length + 1) = [] ∧
    ∀ p, p ≠ idx → p ≤ m.hashes.length →
      (find_or_make m pool idx key).1.hash p = m.hash p := by
  have hne : m.hashes.length + 1 ≠ idx := by
    have := hv.2; omega
  have hfm : find_or_make m pool idx key =
      (apr_hash_set (apr_pstrdup_content (apr_hash_make m pool).1 pool key).1 idx (.str key)
        (m.hashes.length + 1), m.hashes.length + 1) := by
    unfold find_or_make apr_hash_get
    simp only [h, if_true]
    rfl
  rw [hfm]
  refine ⟨rfl, ?_, ?_, ?_, ?_, ?_⟩
  · show (apr_hash_set _ _ _ _).hashes.length = _
    rw [apr_hash_set_length]
    exact apr_hash_make_length m pool
  · show (apr_hash_set _ _ _ _).strings = _
    rw [apr_hash_set_strings]
    rfl
  · show (apr_hash_set _ _ _ _).hash idx = _
    rw [apr_hash_set_hash_self _ _ _ _
        (apr_pstrdup_content_valid _ pool idx key (valid_hash_make m pool idx hv)),
      apr_pstrdup_content_hash, apr_hash_make_hash_old m pool idx hv.2]
    unfold hash_insert
    rw [if_neg (Nat.succ_ne_zero _), hash_remove_of_find_null _ _ hnz h]
  · show (apr_hash_set _ _ _ _).hash _ = _
    rw [apr_hash_set_hash_other _ _ _ _ _ hne, apr_pstrdup_content_hash,
      apr_hash_make_hash_new]
  · intro p hp hle
    show (apr_hash_set _ _ _ _).hash _ = _
    rw [apr_hash_set_hash_other _ _ _ _ _ hp, apr_pstrdup_content_hash,
      apr_hash_make_hash_old m pool p hle]

/-- The function `serf_get_config_from_store` without a connection. -/
theorem serf_get_config_from_store_none (m : Memory) (ctx : serf_context_t)
    (out_pool : Nat) (pool_status : apr_status_t) :
    serf_get_config_from_store m ctx none out_pool pool_status =
      (APR_SUCCESS,
        some { pool := out_pool, per_context := ctx.config_store.per_context,
               per_host := 0, per_conn := 0 }, m) := rfl

/-- The function `serf_get_config_from_store` when the temporary pool cannot be
made. -/
theorem serf_get_config_from_store_fail (m : Memory) (ctx : serf_context_t)
    (c : serf_connection_t) (out_pool : Nat) (pool_status : apr_status_t)
    (h : pool_status ≠ APR_SUCCESS) :
    serf_get_config_from_store m ctx (some c) out_pool pool_status = (pool_status, none, m) := by
  unfold serf_get_config_from_store
  simp only [h, ne_eq, not_false_eq_true, if_true]

/-- The function `serf_get_config_from_store` with a connection: two steps
`find_or_make`, first the connection namespace, then the host namespace. -/
theorem serf_get_config_from_store_some (m : Memory) (ctx : serf_context_t)
    (c : serf_connection_t) (out_pool : Nat) :
    serf_get_config_from_store m ctx (some c) out_pool APR_SUCCESS =
      (APR_SUCCESS,
        some { pool := out_pool, per_context := ctx.config_store.per_context,
               per_host := (find_or_make
                 (find_or_make m ctx.config_store.pool ctx.config_store.per_conn
                   (conn_key_for_conn c)).1
                 ctx.config_store.pool ctx.config_store.per_host
                 (host_key_for_conn c)).2,
               per_conn := (find_or_make m ctx.config_store.pool ctx.config_store.per_conn
                   (conn_key_for_conn c)).2 },
        (find_or_make
          (find_or_make m ctx.config_store.pool ctx.config_store.per_conn
            (conn_key_for_conn c)).1
          ctx.config_store.pool ctx.config_store.per_host
          (host_key_for_conn c)).1) := by
  unfold serf_get_config_from_store find_or_make
  simp only [ne_eq, not_true_eq_false, if_false]

theorem WF_congr (m m2 : Memory) (s : serf__config_store_t)
    (hl : m2.hashes.length = m.hashes.length)
    (hh : m2.hash s.per_host = m.hash s.per_host)
    (hc : m2.hash s.per_conn = m.hash s.per_conn) (h : WF m s) : WF m2 s := by
  have hv : ∀ p, m.valid_hash p → m2.valid_hash p := by
    intro p hp
    exact ⟨hp.1, by rw [hl]; exact hp.2⟩
  have hn : namespaces m2 s = namespaces m s := by
    unfold namespaces index_values
    rw [hh, hc]
  obtain ⟨h1, h2, h3, h4, h5, h6, h7, h8⟩ := h
  refine ⟨hv _ h1, hv _ h2, hv _ h3, h4, h5, h6, ?_, ?_⟩
  · intro p hp
    rw [hn] at hp
    obtain ⟨a, b, c, d⟩ := h7 p hp
    exact ⟨hv _ a, b, c, d⟩
  · rw [hn]; exact h8

theorem WF_host_ne_zero (m : Memory) (s : serf__config_store_t) (h : WF m s) :
    ∀ p ∈ index_values m s.per_host, p ≠ 0 := by
  intro p hp
  have := (h.2.2.2.2.2.2.1 p (by unfold namespaces; exact List.mem_append_left _ hp)).1.1
  omega

theorem WF_conn_ne_zero (m : Memory) (s : serf__config_store_t) (h : WF m s) :
    ∀ p ∈ index_values m s.per_conn, p ≠ 0 := by
  intro p hp
  have := (h.2.2.2.2.2.2.1 p (by unfold namespaces; exact List.mem_append_right _ hp)).1.1
  omega

theorem WF_find_or_make_conn (m : Memory) (s : serf__config_store_t) (pool : Nat)
    (key : String) (h : WF m s) : WF (find_or_make m pool s.per_conn key).1 s := by
  by_cases hf : hash_find (m.hash s.per_conn) (.str key) = 0
  · obtain ⟨_, hlen, _, hidx, _, hoth⟩ :=
      find_or_make_made m pool s.per_conn key h.2.2.1 (WF_conn_ne_zero m s h) hf
    obtain ⟨h1, h2, h3, h4, h5, h6, h7, h8⟩ := h
    have hv : ∀ p, m.valid_hash p → (find_or_make m pool s.per_conn key).1.valid_hash p := by
      intro p hp
      exact ⟨hp.1, by rw [hlen]; have := hp.2; omega⟩
    have hhost : (find_or_make m pool s.per_conn key).1.hash s.per_host = m.hash s.per_host :=
      hoth _ h6 h2.2
    have hn : namespaces (find_or_make m pool s.per_conn key).1 s =
        index_values m s.per_host ++ (m.hashes.length + 1) :: index_values m s.per_conn := by
      unfold namespaces index_values
      rw [hhost, hidx]; rfl
    refine ⟨hv _ h1, hv _ h2, hv _ h3, h4, h5, h6, ?_, ?_⟩
    · intro p hp
      rw [hn] at hp
      simp only [List.mem_append, List.mem_cons] at hp
      have hold : p ∈ namespaces m s →
          (find_or_make m pool s.per_conn key).1.valid_hash p ∧ p ≠ s.per_context ∧
            p ≠ s.per_host ∧ p ≠ s.per_conn := by
        intro hp2
        obtain ⟨a, b, c, d⟩ := h7 p hp2
        exact ⟨hv _ a, b, c, d⟩
      rcases hp with hp | hp | hp
      · exact hold (List.mem_append_left _ hp)
      · subst hp
        have a1 := h1.2; have a2 := h2.2; have a3 := h3.2
        refine ⟨⟨by omega, by rw [hlen]⟩, by omega, by omega, by omega⟩
      · exact hold (List.mem_append_right _ hp)
    · rw [hn]
      apply List.nodup_middle.mpr
      refine List.nodup_cons.mpr ⟨?_, h8⟩
      intro hmem
      have := (h7 _ hmem).1.2
      omega
  · rw [find_or_make_found m pool s.per_conn key hf]
    exact h

theorem WF_find_or_make_host (m : Memory) (s : serf__config_store_t) (pool : Nat)
    (key : String) (h : WF m s) : WF (find_or_make m pool s.per_host key).1 s := by
  by_cases hf : hash_find (m.hash s.per_host) (.str key) = 0
  · obtain ⟨_, hlen, _, hidx, _, hoth⟩ :=
      find_or_make_made m pool s.per_host key h.2.1 (WF_host_ne_zero m s h) hf
    obtain ⟨h1, h2, h3, h4, h5, h6, h7, h8⟩ := h
    have hv : ∀ p, m.valid_hash p → (find_or_make m pool s.per_host key).1.valid_hash p := by
      intro p hp
      exact ⟨hp.1, by rw [hlen]; have := hp.2; omega⟩
    have hconn : (find_or_make m pool s.per_host key).1.hash s.per_conn = m.hash s.per_conn :=
      hoth _ (Ne.symm h6) h3.2
    have hn : namespaces (find_or_make m pool s.per_host key).1 s =
        (m.hashes.length + 1) :: (index_values m s.per_host ++ index_values m s.per_conn) := by
      unfold namespaces index_values
      rw [hconn, hidx]; rfl
    refine ⟨hv _ h1, hv _ h2, hv _ h3, h4, h5, h6, ?_, ?_⟩
    · intro p hp
      rw [hn] at hp
      rcases List.mem_cons.mp hp with hp | hp
      · subst hp
        have a1 := h1.2; have a2 := h2.2; have a3 := h3.2
        refine ⟨⟨by omega, by rw [hlen]⟩, by omega, by omega, by omega⟩
      · obtain ⟨a, b, c, d⟩ := h7 p hp
        exact ⟨hv _ a, b, c, d⟩
    · rw [hn]
      refine List.nodup_cons.mpr ⟨?_, h8⟩
      intro hmem
      have := (h7 _ hmem).1.2
      omega
  · rw [find_or_make_found m pool s.per_host key hf]
    exact h

/-- The store that `serf__init_config_store` sets up is well-formed. -/
theorem WF_init (m : Memory) (ctx : serf_context_t) :
    WF (serf__init_config_store m ctx).2.2 (serf__init_config_store m ctx).2.1.config_store := by
  have l1 : (apr_hash_make m ctx.pool).1.hashes.length = m.hashes.length + 1 :=
    apr_hash_make_length m ctx.pool
  have l2 : (apr_hash_make (apr_hash_make m ctx.pool).1 ctx.pool).1.hashes.length =
      m.hashes.length + 2 := by
    rw [apr_hash_make_length, l1]
  have e2 : (serf__init_config_store m ctx).2.2.hash (m.hashes.length + 2) = [] := by
    show (apr_hash_make (apr_hash_make (apr_hash_make m ctx.pool).1 ctx.pool).1 ctx.pool).1.hash
      (m.hashes.length + 2) = []
    rw [apr_hash_make_hash_old _ _ _ (by rw [l2])]
    have := apr_hash_make_hash_new (apr_hash_make m ctx.pool).1 ctx.pool
    rw [l1] at this
    exact this
  have e3 : (serf__init_config_store m ctx).2.2.hash (m.hashes.length + 3) = [] := by
    show (apr_hash_make (apr_hash_make (apr_hash_make m ctx.pool).1 ctx.pool).1 ctx.pool).1.hash
      (m.hashes.length + 3) = []
    have := apr_hash_make_hash_new (apr_hash_make (apr_hash_make m ctx.pool).1 ctx.pool).1
      ctx.pool
    rw [l2] at this
    exact this
  have el : (serf__init_config_store m ctx).2.2.hashes.length = m.hashes.length + 3 := by
    simp [serf__init_config_store, apr_hash_make]
  have p1 : (serf__init_config_store m ctx).2.1.config_store.per_context = m.hashes.length + 1 :=
    rfl
  have p2 : (serf__init_config_store m ctx).2.1.config_store.per_host = m.hashes.length + 2 := by
    simp [serf__init_config_store, apr_hash_make]
  have p3 : (serf__init_config_store m ctx).2.1.config_store.per_conn = m.hashes.length + 3 := by
    simp [serf__init_config_store, apr_hash_make]
  unfold WF namespaces index_values Memory.valid_hash
  rw [p1, p2, p3, e2, e3, el]
  simp


theorem hash_congr (m m2 : Memory) (p : Nat) (h : m2.hashes = m.hashes) :
    m2.hash p = m.hash p := by
  cases p with
  | zero => rfl
  | succ q => simp [Memory.hash, h]

theorem apr_pstrdup_hashes (m : Memory) (pool s : Nat) :
    (apr_pstrdup m pool s).1.hashes = m.hashes := by
  unfold apr_pstrdup
  cases m.deref s <;> rfl

theorem apr_pstrdup_deref_old (m : Memory) (pool s p : Nat) (w : String)
    (h : m.deref p = some w) : (apr_pstrdup m pool s).1.deref p = some w := by
  unfold apr_pstrdup
  cases hs : m.deref s with
  | none => exact h
  | some str =>
    cases p with
    | zero => exact absurd h (by simp [Memory.deref])
    | succ q =>
      simp only [Memory.deref, List.get?_eq_getElem?, Option.bind_eq_some] at h ⊢
      obtain ⟨a, ha, hw⟩ := h
      refine ⟨a, ?_, hw⟩
      have hq : q < m.strings.length := by
        by_contra hcon
        rw [List.getElem?_eq_none (by omega)] at ha
        exact absurd ha (by simp)
      rw [List.getElem?_append_left hq]
      exact ha

theorem apr_pstrdup_deref_new (m : Memory) (pool s : Nat) (v : String)
    (h : m.deref s = some v) :
    (apr_pstrdup m pool s).2 ≠ 0 ∧
    (apr_pstrdup m pool s).1.deref (apr_pstrdup m pool s).2 = some v ∧
    (apr_pstrdup m pool s).1.owner (apr_pstrdup m pool s).2 = some pool := by
  unfold apr_pstrdup
  rw [h]
  simp [Memory.deref, Memory.owner]

/-- The function `serf_set_config_string` in terms of the routed namespace. -/
theorem serf_set_config_string_eq (H : serf_h) (m : Memory) (config : serf_config_t)
    (key value copy_flags : Nat) :
    serf_set_config_string H m config key value copy_flags =
      if routed H config key = 0 then
        (APR_EINVAL,
          (if copy_flags &&& H.SERF_CONFIG_COPY_VALUE ≠ 0
            then apr_pstrdup m config.pool value else (m, value)).1)
      else
        (APR_SUCCESS,
          apr_hash_set
            (if copy_flags &&& H.SERF_CONFIG_COPY_VALUE ≠ 0
              then apr_pstrdup m config.pool value else (m, value)).1
            (routed H config key) (.key key)
            (if copy_flags &&& H.SERF_CONFIG_COPY_VALUE ≠ 0
              then apr_pstrdup m config.pool value else (m, value)).2) := rfl

/-- The function `serf_get_config_string` in terms of the routed namespace. -/
theorem serf_get_config_string_eq (H : serf_h) (m : Memory) (config : serf_config_t)
    (key : Nat) :
    serf_get_config_string H m config key =
      if routed H config key = 0 then (APR_EINVAL, 0)
      else (APR_SUCCESS, hash_find (m.hash (routed H config key)) (.key key)) := rfl

/-- The value `serf_set_config_string` stores: the copy or the pointer of the
caller.  It leaves the hash tables and the strings that exist alone, and it
points to the string of the caller. -/
theorem copied_spec (H : serf_h) (m : Memory) (pool value copy_flags : Nat) :
    (if copy_flags &&& H.SERF_CONFIG_COPY_VALUE ≠ 0
       then apr_pstrdup m pool value else (m, value)).1.hashes = m.hashes ∧
    (∀ p w, m.deref p = some w →
      (if copy_flags &&& H.SERF_CONFIG_COPY_VALUE ≠ 0
         then apr_pstrdup m pool value else (m, value)).1.deref p = some w) ∧
    (∀ v, m.deref value = some v →
      (if copy_flags &&& H.SERF_CONFIG_COPY_VALUE ≠ 0
         then apr_pstrdup m pool value else (m, value)).2 ≠ 0 ∧
      (if copy_flags &&& H.SERF_CONFIG_COPY_VALUE ≠ 0
         then apr_pstrdup m pool value else (m, value)).1.deref
        (if copy_flags &&& H.SERF_CONFIG_COPY_VALUE ≠ 0
         then apr_pstrdup m pool value else (m, value)).2 = some v) := by
  by_cases hc : copy_flags &&& H.SERF_CONFIG_COPY_VALUE ≠ 0
  · simp only [if_pos hc]
    refine ⟨apr_pstrdup_hashes m pool value, fun p w hp => apr_pstrdup_deref_old m pool value p w hp,
      fun v hv => ?_⟩
    exact ⟨(apr_pstrdup_deref_new m pool value v hv).1, (apr_pstrdup_deref_new m pool value v hv).2.1⟩
  · simp only [if_neg hc]
    refine ⟨trivial, fun p w hp => hp, fun v hv => ⟨?_, hv⟩⟩
    intro h0
    rw [h0] at hv
    exact absurd hv (by simp [Memory.deref])

theorem apr_hash_set_deref (m : Memory) (ht : Nat) (k : apr_hash_key) (v p : Nat) :
    (apr_hash_set m ht k v).deref p = m.deref p := by
  cases p with
  | zero => rfl
  | succ q => simp [Memory.deref, apr_hash_set_strings]

/-- What `serf_set_config_string` does to the memory: the number of tables
stays, every table but the routed one stays, every string stays. -/
theorem serf_set_config_string_frame (H : serf_h) (m : Memory) (config : serf_config_t)
    (key value copy_flags : Nat) :
    (serf_set_config_string H m config key value copy_flags).2.hashes.length = m.hashes.length ∧
    (∀ p, p ≠ routed H config key →
      (serf_set_config_string H m config key value copy_flags).2.hash p = m.hash p) ∧
    (∀ p w, m.deref p = some w →
      (serf_set_config_string H m config key value copy_flags).2.deref p = some w) := by
  obtain ⟨c1, c2, _⟩ := copied_spec H m config.pool value copy_flags
  rw [serf_set_config_string_eq]
  by_cases hr : routed H config key = 0
  · simp only [if_pos hr]
    exact ⟨by rw [c1], fun p _ => hash_congr _ _ p c1, c2⟩
  · simp only [if_neg hr]
    refine ⟨by rw [apr_hash_set_length, c1], fun p hp => ?_, fun p w hp => ?_⟩
    · rw [apr_hash_set_hash_other _ _ _ _ _ hp]
      exact hash_congr _ _ p c1
    · rw [apr_hash_set_deref]
      exact c2 p w hp

/-- A successful `serf_set_config_string` of a string: the routed namespace
holds a pointer to the string under the key. -/
theorem serf_set_config_string_stored (H : serf_h) (m : Memory) (config : serf_config_t)
    (key value copy_flags : Nat) (v : String)
    (hv : m.valid_hash (routed H config key)) (hs : m.deref value = some v) :
    (serf_set_config_string H m config key value copy_flags).1 = APR_SUCCESS ∧
    (serf_set_config_string H m config key value copy_flags).2.deref
      (hash_find ((serf_set_config_string H m config key value copy_flags).2.hash
        (routed H config key)) (.key key)) = some v := by
  obtain ⟨c1, _, c3⟩ := copied_spec H m config.pool value copy_flags
  obtain ⟨c4, c5⟩ := c3 v hs
  have hr : routed H config key ≠ 0 := by have := hv.1; omega
  rw [serf_set_config_string_eq]
  simp only [if_neg hr]
  refine ⟨trivial, ?_⟩
  rw [apr_hash_set_hash_self _ _ _ _ ⟨hv.1, by rw [c1]; exact hv.2⟩, hash_find_insert_self,
    apr_hash_set_deref]
  exact c5


theorem deref_congr (m m2 : Memory) (p : Nat) (h : m2.strings = m.strings) :
    m2.deref p = m.deref p := by
  cases p with
  | zero => rfl
  | succ q => simp [Memory.deref, h]

theorem Grows_refl (s : serf__config_store_t) (m : Memory) : Grows s m m :=
  ⟨Nat.le_refl _, fun _ _ => rfl, fun _ _ => rfl, fun _ h => h, fun _ h => h⟩

theorem Grows_trans (s : serf__config_store_t) (m m2 m3 : Memory)
    (h12 : Grows s m m2) (h23 : Grows s m2 m3) : Grows s m m3 := by
  obtain ⟨a1, a2, a3, a4, a5⟩ := h12
  obtain ⟨b1, b2, b3, b4, b5⟩ := h23
  refine ⟨Nat.le_trans a1 b1, ?_, ?_, fun p hp => b4 p (a4 p hp), fun p hp => b5 p (a5 p hp)⟩
  · intro k hk
    have e := a2 k hk
    rw [← e] at hk ⊢
    exact b2 k hk
  · intro k hk
    have e := a3 k hk
    rw [← e] at hk ⊢
    exact b3 k hk

theorem Grows_congr (s : serf__config_store_t) (m m2 : Memory)
    (hl : m2.hashes.length = m.hashes.length)
    (hh : m2.hash s.per_host = m.hash s.per_host)
    (hc : m2.hash s.per_conn = m.hash s.per_conn) : Grows s m m2 := by
  unfold Grows index_values
  rw [hh, hc, hl]
  exact ⟨Nat.le_refl _, fun _ _ => rfl, fun _ _ => rfl, fun _ h => h, fun _ h => h⟩

theorem IsView_of_Grows (s : serf__config_store_t) (m m2 : Memory) (cfg : serf_config_t)
    (hg : Grows s m m2) (h : IsView m s cfg) : IsView m2 s cfg := by
  obtain ⟨h1, h2, h3⟩ := h
  refine ⟨h1, ?_, ?_⟩
  · rcases h2 with h2 | h2
    · exact Or.inl h2
    · exact Or.inr (hg.2.2.2.1 _ h2)
  · rcases h3 with h3 | h3
    · exact Or.inl h3
    · exact Or.inr (hg.2.2.2.2 _ h3)

theorem new_strings_in_refl (m : Memory) (pool : Nat) : new_strings_in m m pool :=
  ⟨[], by simp, fun c hc => absurd hc (List.not_mem_nil c)⟩

theorem new_strings_in_trans (m m2 m3 : Memory) (pool : Nat)
    (h12 : new_strings_in m m2 pool) (h23 : new_strings_in m2 m3 pool) :
    new_strings_in m m3 pool := by
  obtain ⟨l1, e1, o1⟩ := h12
  obtain ⟨l2, e2, o2⟩ := h23
  refine ⟨l1 ++ l2, by rw [e2, e1, List.append_assoc], ?_⟩
  intro c hc
  rcases List.mem_append.mp hc with hc | hc
  · exact o1 c hc
  · exact o2 c hc

theorem new_strings_in_congr (m m2 : Memory) (pool : Nat) (h : m2.strings = m.strings) :
    new_strings_in m m2 pool :=
  ⟨[], by simp [h], fun c hc => absurd hc (List.not_mem_nil c)⟩

/-- The strings that exist stay behind their pointers when new strings are
made. -/
theorem deref_of_new_strings_in (m m2 : Memory) (pool p : Nat) (w : String)
    (hn : new_strings_in m m2 pool) (h : m.deref p = some w) : m2.deref p = some w := by
  obtain ⟨l, e, _⟩ := hn
  cases p with
  | zero => exact absurd h (by simp [Memory.deref])
  | succ q =>
    simp only [Memory.deref, List.get?_eq_getElem?, Option.bind_eq_some] at h ⊢
    obtain ⟨a, ha, hw⟩ := h
    refine ⟨a, ?_, hw⟩
    have hq : q < m.strings.length := by
      by_contra hcon
      rw [List.getElem?_eq_none (by omega)] at ha
      exact absurd ha (by simp)
    rw [e, List.getElem?_append_left hq]
    exact ha

/-- What one step `find_or_make` on an index table gives and leaves. -/
theorem find_or_make_spec (m : Memory) (pool idx : Nat) (key : String)
    (hv : m.valid_hash idx) (hnz : ∀ p ∈ index_values m idx, p ≠ 0) :
    hash_find ((find_or_make m pool idx key).1.hash idx) (.str key) =
      (find_or_make m pool idx key).2 ∧
    (find_or_make m pool idx key).2 ≠ 0 ∧
    (find_or_make m pool idx key).2 ∈ index_values (find_or_make m pool idx key).1 idx ∧
    (∀ k, hash_find (m.hash idx) k ≠ 0 →
      hash_find ((find_or_make m pool idx key).1.hash idx) k = hash_find (m.hash idx) k) ∧
    (∀ p ∈ index_values m idx, p ∈ index_values (find_or_make m pool idx key).1 idx) ∧
    m.hashes.length ≤ (find_or_make m pool idx key).1.hashes.length ∧
    new_strings_in m (find_or_make m pool idx key).1 pool ∧
    (∀ p, p ≠ idx → p ≤ m.hashes.length → (find_or_make m pool idx key).1.hash p = m.hash p) := by
  by_cases hf : hash_find (m.hash idx) (.str key) = 0
  · obtain ⟨e1, e2, e3, e4, _, e6⟩ := find_or_make_made m pool idx key hv hnz hf
    refine ⟨?_, ?_, ?_, ?_, ?_, ?_, ?_, e6⟩
    · rw [e4, e1, hash_find_cons_self]
    · rw [e1]; exact Nat.succ_ne_zero _
    · unfold index_values; rw [e4, e1]; simp
    · intro k hk
      have hne : apr_hash_key.str key ≠ k := fun e => hk (e ▸ hf)
      rw [e4, hash_find_cons_ne _ _ _ _ hne]
    · intro p hp
      unfold index_values at hp ⊢
      rw [e4, List.map_cons]
      exact List.mem_cons_of_mem _ hp
    · rw [e2]; omega
    · refine ⟨[(pool, some key)], e3, ?_⟩
      intro c hc
      rw [List.mem_singleton.mp hc]
  · rw [find_or_make_found m pool idx key hf]
    exact ⟨rfl, hf, hash_find_mem _ _ hf, fun _ _ => rfl, fun _ h => h, Nat.le_refl _,
      new_strings_in_refl _ _, fun _ _ _ => rfl⟩

theorem Grows_find_or_make_conn (m : Memory) (s : serf__config_store_t) (pool : Nat)
    (key : String) (h : WF m s) : Grows s m (find_or_make m pool s.per_conn key).1 := by
  obtain ⟨_, _, _, e4, e5, e6, _, e8⟩ :=
    find_or_make_spec m pool s.per_conn key h.2.2.1 (WF_conn_ne_zero m s h)
  have hh : (find_or_make m pool s.per_conn key).1.hash s.per_host = m.hash s.per_host :=
    e8 _ h.2.2.2.2.2.1 h.2.1.2
  refine ⟨e6, ?_, e4, ?_, e5⟩
  · intro k _; rw [hh]
  · intro p hp; unfold index_values at hp ⊢; rw [hh]; exact hp

theorem Grows_find_or_make_host (m : Memory) (s : serf__config_store_t) (pool : Nat)
    (key : String) (h : WF m s) : Grows s m (find_or_make m pool s.per_host key).1 := by
  obtain ⟨_, _, _, e4, e5, e6, _, e8⟩ :=
    find_or_make_spec m pool s.per_host key h.2.1 (WF_host_ne_zero m s h)
  have hc : (find_or_make m pool s.per_host key).1.hash s.per_conn = m.hash s.per_conn :=
    e8 _ (Ne.symm h.2.2.2.2.2.1) h.2.2.1.2
  refine ⟨e6, e4, ?_, e5, ?_⟩
  · intro k _; rw [hc]
  · intro p hp; unfold index_values at hp ⊢; rw [hc]; exact hp

/-- What a successful `serf_get_config_from_store` with a connection returns
and leaves, on a well-formed store. -/
theorem serf_get_config_from_store_spec (m : Memory) (ctx : serf_context_t)
    (c : serf_connection_t) (out_pool : Nat) (hwf : WF m ctx.config_store) :
    ∃ cfg m2, serf_get_config_from_store m ctx (some c) out_pool APR_SUCCESS =
        (APR_SUCCESS, some cfg, m2) ∧
      cfg.pool = out_pool ∧ cfg.per_context = ctx.config_store.per_context ∧
      cfg.per_conn ≠ 0 ∧ cfg.per_host ≠ 0 ∧
      hash_find (m2.hash ctx.config_store.per_conn) (.str (conn_key_for_conn c)) = cfg.per_conn ∧
      hash_find (m2.hash ctx.config_store.per_host) (.str (host_key_for_conn c)) = cfg.per_host ∧
      WF m2 ctx.config_store ∧ IsView m2 ctx.config_store cfg ∧ Grows ctx.config_store m m2 ∧
      new_strings_in m m2 ctx.config_store.pool ∧
      (∀ p, p ≤ m.hashes.length → p ≠ ctx.config_store.per_host →
        p ≠ ctx.config_store.per_conn → m2.hash p = m.hash p) := by
  have w1 := WF_find_or_make_conn m ctx.config_store ctx.config_store.pool
    (conn_key_for_conn c) hwf
  have g1 := Grows_find_or_make_conn m ctx.config_store ctx.config_store.pool
    (conn_key_for_conn c) hwf
  obtain ⟨a1, a2, a3, _, _, a6, a7, a8⟩ :=
    find_or_make_spec m ctx.config_store.pool ctx.config_store.per_conn
      (conn_key_for_conn c) hwf.2.2.1 (WF_conn_ne_zero m _ hwf)
  have w2 := WF_find_or_make_host _ ctx.config_store ctx.config_store.pool
    (host_key_for_conn c) w1
  have g2 := Grows_find_or_make_host _ ctx.config_store ctx.config_store.pool
    (host_key_for_conn c) w1
  obtain ⟨b1, b2, b3, _, _, _, b7, b8⟩ :=
    find_or_make_spec _ ctx.config_store.pool ctx.config_store.per_host
      (host_key_for_conn c) w1.2.1 (WF_host_ne_zero _ _ w1)
  refine ⟨_, _, serf_get_config_from_store_some m ctx c out_pool, rfl, rfl, a2, b2, ?_, b1, w2,
    ⟨rfl, Or.inr b3, Or.inr (g2.2.2.2.2 _ a3)⟩, Grows_trans _ _ _ _ g1 g2, ?_, ?_⟩
  · show hash_find _ _ = (find_or_make m _ _ _).2
    rw [g2.2.2.1 _ (by rw [a1]; exact a2), a1]
  · exact new_strings_in_trans _ _ _ _ a7 b7
  · intro p hp hh hc
    rw [b8 p hh (Nat.le_trans hp a6), a8 p hc hp]

/-- When both namespaces are entered already, `serf_get_config_from_store`
returns them and leaves the memory as it is. -/
theorem serf_get_config_from_store_found (m : Memory) (ctx : serf_context_t)
    (c : serf_connection_t) (out_pool : Nat)
    (hc : hash_find (m.hash ctx.config_store.per_conn) (.str (conn_key_for_conn c)) ≠ 0)
    (hh : hash_find (m.hash ctx.config_store.per_host) (.str (host_key_for_conn c)) ≠ 0) :
    serf_get_config_from_store m ctx (some c) out_pool APR_SUCCESS =
      (APR_SUCCESS,
        some { pool := out_pool, per_context := ctx.config_store.per_context,
               per_host := hash_find (m.hash ctx.config_store.per_host)
                 (.str (host_key_for_conn c)),
               per_conn := hash_find (m.hash ctx.config_store.per_conn)
                 (.str (conn_key_for_conn c)) }, m) := by
  rw [serf_get_config_from_store_some, find_or_make_found m _ _ _ hc,
    find_or_make_found m _ _ _ hh]

/-- Every call of `serf_get_config_from_store` keeps the store well-formed,
only lets the index tables grow, returns a view of the store if it returns
one, leaves the strings that exist and every table but the two index tables
alone, and makes new strings in the pool of the store only. -/
theorem serf_get_config_from_store_inv (m : Memory) (ctx : serf_context_t)
    (conn : Option serf_connection_t) (out_pool : Nat) (pool_status : apr_status_t)
    (hwf : WF m ctx.config_store) :
    WF (serf_get_config_from_store m ctx conn out_pool pool_status).2.2 ctx.config_store ∧
    Grows ctx.config_store m (serf_get_config_from_store m ctx conn out_pool pool_status).2.2 ∧
    (∀ cfg, (serf_get_config_from_store m ctx conn out_pool pool_status).2.1 = some cfg →
      IsView (serf_get_config_from_store m ctx conn out_pool pool_status).2.2
        ctx.config_store cfg) ∧
    new_strings_in m (serf_get_config_from_store m ctx conn out_pool pool_status).2.2
      ctx.config_store.pool ∧
    (∀ p, p ≤ m.hashes.length → p ≠ ctx.config_store.per_host →
      p ≠ ctx.config_store.per_conn →
      (serf_get_config_from_store m ctx conn out_pool pool_status).2.2.hash p = m.hash p) := by
  cases conn with
  | none =>
    rw [serf_get_config_from_store_none]
    refine ⟨hwf, Grows_refl _ _, ?_, new_strings_in_refl _ _, fun _ _ _ _ => rfl⟩
    intro cfg hcfg
    simp only [Option.some.injEq] at hcfg
    subst hcfg
    exact ⟨rfl, Or.inl rfl, Or.inl rfl⟩
  | some c =>
    by_cases hs : pool_status = APR_SUCCESS
    · subst hs
      obtain ⟨cfg, m2, e, _, _, _, _, _, _, w, v, g, st, fr⟩ :=
        serf_get_config_from_store_spec m ctx c out_pool hwf
      rw [e]
      refine ⟨w, g, ?_, st, fr⟩
      intro cfg2 hcfg
      simp only [Option.some.injEq] at hcfg
      subst hcfg
      exact v
    · rw [serf_get_config_from_store_fail m ctx c out_pool pool_status hs]
      refine ⟨hwf, Grows_refl _ _, ?_, new_strings_in_refl _ _, fun _ _ _ _ => rfl⟩
      intro cfg hcfg
      exact absurd hcfg (by simp)


/-- The namespace a key is routed to in a view of a well-formed store is unset
or a table of the memory that is neither index table. -/
theorem routed_of_IsView (H : serf_h) (m : Memory) (s : serf__config_store_t)
    (cfg : serf_config_t) (key : Nat) (hwf : WF m s) (hv : IsView m s cfg)
    (hr : routed H cfg key ≠ 0) :
    m.valid_hash (routed H cfg key) ∧ routed H cfg key ≠ s.per_host ∧
      routed H cfg key ≠ s.per_conn ∧ is_namespace m s (routed H cfg key) := by
  obtain ⟨h1, h2, h3, h4, h5, h6, h7, _⟩ := hwf
  obtain ⟨v1, v2, v3⟩ := hv
  have hctx : m.valid_hash cfg.per_context ∧ cfg.per_context ≠ s.per_host ∧
      cfg.per_context ≠ s.per_conn ∧ is_namespace m s cfg.per_context := by
    rw [v1]; exact ⟨h1, h4, h5, Or.inl rfl⟩
  have hhost : cfg.per_host ≠ 0 → m.valid_hash cfg.per_host ∧ cfg.per_host ≠ s.per_host ∧
      cfg.per_host ≠ s.per_conn ∧ is_namespace m s cfg.per_host := by
    intro hne
    rcases v2 with v2 | v2
    · exact absurd v2 hne
    · have hm : cfg.per_host ∈ namespaces m s := List.mem_append_left _ v2
      obtain ⟨a, _, c, d⟩ := h7 _ hm
      exact ⟨a, c, d, Or.inr hm⟩
  have hconn : cfg.per_conn ≠ 0 → m.valid_hash cfg.per_conn ∧ cfg.per_conn ≠ s.per_host ∧
      cfg.per_conn ≠ s.per_conn ∧ is_namespace m s cfg.per_conn := by
    intro hne
    rcases v3 with v3 | v3
    · exact absurd v3 hne
    · have hm : cfg.per_conn ∈ namespaces m s := List.mem_append_right _ v3
      obtain ⟨a, _, c, d⟩ := h7 _ hm
      exact ⟨a, c, d, Or.inr hm⟩
  unfold routed at hr ⊢
  split
  · exact hctx
  · split
    · rename_i hA hB
      rw [if_neg hA, if_pos hB] at hr
      exact hhost hr
    · rename_i hA hB
      rw [if_neg hA, if_neg hB] at hr
      exact hconn hr

/-- A `serf_set_config_string` through a view of a well-formed store leaves
both index tables as they are. -/
theorem serf_set_config_string_index (H : serf_h) (m : Memory) (s : serf__config_store_t)
    (cfg : serf_config_t) (key value copy_flags : Nat) (hwf : WF m s) (hv : IsView m s cfg) :
    (serf_set_config_string H m cfg key value copy_flags).2.hashes.length = m.hashes.length ∧
    (serf_set_config_string H m cfg key value copy_flags).2.hash s.per_host = m.hash s.per_host ∧
    (serf_set_config_string H m cfg key value copy_flags).2.hash s.per_conn =
      m.hash s.per_conn := by
  obtain ⟨f1, f2, _⟩ := serf_set_config_string_frame H m cfg key value copy_flags
  by_cases hr : routed H cfg key = 0
  · refine ⟨f1, f2 _ ?_, f2 _ ?_⟩
    · rw [hr]; have := hwf.2.1.1; omega
    · rw [hr]; have := hwf.2.2.1.1; omega
  · obtain ⟨_, a, b, _⟩ := routed_of_IsView H m s cfg key hwf hv hr
    exact ⟨f1, f2 _ (Ne.symm a), f2 _ (Ne.symm b)⟩

/-- The function `serf_get_config_string_st` in terms of the routed
namespace. -/
theorem serf_get_config_string_st_eq (H : serf_h) (m : Memory) (config : serf_config_t)
    (key value : Nat) :
    serf_get_config_string_st H m config key value =
      if routed H config key = 0 then (APR_EINVAL, m, config, 0)
      else (APR_SUCCESS, m, config, hash_find (m.hash (routed H config key)) (.key key)) := rfl

/-- A call of `serf_get_config_string_st` leaves the memory and the view as
they are. -/
theorem serf_get_config_string_st_frame (H : serf_h) (m : Memory) (config : serf_config_t)
    (key value : Nat) :
    (serf_get_config_string_st H m config key value).2.1 = m ∧
    (serf_get_config_string_st H m config key value).2.2.1 = config := by
  rw [serf_get_config_string_st_eq]
  split <;> exact ⟨rfl, rfl⟩

theorem set_of_get (l : List serf_config_t) (i : Nat) (a : serf_config_t)
    (h : l.get? i = some a) : l.set i a = l := by
  induction l generalizing i with
  | nil => rfl
  | cons x l ih =>
    cases i with
    | zero =>
      simp only [List.get?_cons_zero, Option.some.injEq] at h
      rw [List.set_cons_zero, h]
    | succ j =>
      simp only [List.get?_cons_succ] at h
      rw [List.set_cons_succ, ih j h]

/-- A get leaves the client as it is. -/
theorem Client.step_get (H : serf_h) (ctx : serf_context_t) (cl : Client) (view key : Nat) :
    cl.step H ctx (.get view key) = cl := by
  cases hg : cl.views.get? view with
  | none => simp only [Client.step, hg]
  | some cfg =>
    obtain ⟨a, b⟩ := serf_get_config_string_st_frame H cl.mem cfg key 0
    simp only [Client.step, hg, a, b, set_of_get cl.views view cfg hg]

/-- Every operation of a client keeps the store well-formed and the views
valid, and only lets the index tables grow. -/
theorem Client.step_inv (H : serf_h) (ctx : serf_context_t) (cl : Client) (op : Op)
    (hwf : WF cl.mem ctx.config_store)
    (hviews : ∀ v ∈ cl.views, IsView cl.mem ctx.config_store v) :
    WF (cl.step H ctx op).mem ctx.config_store ∧
    (∀ v ∈ (cl.step H ctx op).views, IsView (cl.step H ctx op).mem ctx.config_store v) ∧
    Grows ctx.config_store cl.mem (cl.step H ctx op).mem := by
  cases op with
  | resolve conn out_pool pool_status =>
    obtain ⟨w, g, v, _, _⟩ :=
      serf_get_config_from_store_inv cl.mem ctx conn out_pool pool_status hwf
    cases hr : (serf_get_config_from_store cl.mem ctx conn out_pool pool_status).2.1 with
    | none =>
      simp only [Client.step, hr]
      exact ⟨w, fun x hx => IsView_of_Grows _ _ _ _ g (hviews x hx), g⟩
    | some cfg =>
      simp only [Client.step, hr]
      refine ⟨w, ?_, g⟩
      intro x hx
      rcases List.mem_append.mp hx with hx | hx
      · exact IsView_of_Grows _ _ _ _ g (hviews x hx)
      · rw [List.mem_singleton.mp hx]
        exact v cfg hr
  | set view key value copy_flags =>
    cases hg : cl.views.get? view with
    | none =>
      simp only [Client.step, hg]
      exact ⟨hwf, hviews, Grows_refl _ _⟩
    | some cfg =>
      simp only [Client.step, hg]
      have hmem : cfg ∈ cl.views := List.get?_mem hg
      obtain ⟨a, b, c⟩ := serf_set_config_string_index H cl.mem ctx.config_store cfg key value
        copy_flags hwf (hviews cfg hmem)
      have g := Grows_congr ctx.config_store cl.mem _ a b c
      exact ⟨WF_congr _ _ _ a b c hwf, fun x hx => IsView_of_Grows _ _ _ _ g (hviews x hx), g⟩
  | get view key =>
    rw [Client.step_get]
    exact ⟨hwf, hviews, Grows_refl _ _⟩
  | remove_connection conn =>
    exact ⟨hwf, hviews, Grows_refl _ _⟩
  | remove_host hostname_port =>
    exact ⟨hwf, hviews, Grows_refl _ _⟩
  | set_object view key value len copy_flags =>
    exact ⟨hwf, hviews, Grows_refl _ _⟩
  | remove_value view key =>
    exact ⟨hwf, hviews, Grows_refl _ _⟩

/-- Every sequence of operations of a client keeps the store well-formed and
the views valid, and only lets the index tables grow. -/
theorem Client.run_inv (H : serf_h) (ctx : serf_context_t) (ops : List Op) (cl : Client)
    (hwf : WF cl.mem ctx.config_store)
    (hviews : ∀ v ∈ cl.views, IsView cl.mem ctx.config_store v) :
    WF (cl.run H ctx ops).mem ctx.config_store ∧
    (∀ v ∈ (cl.run H ctx ops).views, IsView (cl.run H ctx ops).mem ctx.config_store v) ∧
    Grows ctx.config_store cl.mem (cl.run H ctx ops).mem := by
  induction ops generalizing cl with
  | nil => exact ⟨hwf, hviews, Grows_refl _ _⟩
  | cons op ops ih =>
    obtain ⟨w, v, g⟩ := Client.step_inv H ctx cl op hwf hviews
    obtain ⟨w2, v2, g2⟩ := ih (cl.step H ctx op) w v
    exact ⟨w2, v2, Grows_trans _ _ _ _ g g2⟩


theorem hash_find_absent (t : apr_hash_t) (k : apr_hash_key) (h : ∀ e ∈ t, e.1 ≠ k) :
    hash_find t k = 0 := by
  induction t with
  | nil => rfl
  | cons e t ih =>
    obtain ⟨k1, v1⟩ := e
    have h1 : k1 ≠ k := h (k1, v1) (List.mem_cons_self _ _)
    rw [hash_find_cons_ne _ _ _ _ h1]
    exact ih (fun e he => h e (List.mem_cons_of_mem _ he))

/-- A view that `serf_get_config_from_store` returned on a well-formed store is
a view of the store, and the store is still well-formed. -/
theorem view_of_resolve (m : Memory) (ctx : serf_context_t) (conn : Option serf_connection_t)
    (out_pool : Nat) (pool_status st : apr_status_t) (cfg : serf_config_t) (m1 : Memory)
    (hwf : WF m ctx.config_store)
    (hres : serf_get_config_from_store m ctx conn out_pool pool_status = (st, some cfg, m1)) :
    WF m1 ctx.config_store ∧ IsView m1 ctx.config_store cfg ∧ Grows ctx.config_store m m1 ∧
      new_strings_in m m1 ctx.config_store.pool := by
  obtain ⟨w, g, v, s, _⟩ := serf_get_config_from_store_inv m ctx conn out_pool pool_status hwf
  rw [hres] at w g v s
  exact ⟨w, v cfg rfl, g, s⟩

/-- Setting a string through one view and getting it through a view that
routes the key to the same namespace returns the string. -/
theorem set_then_get (H : serf_h) (m : Memory) (cfg cfg2 : serf_config_t)
    (key value copy_flags : Nat) (v : String)
    (hv : m.valid_hash (routed H cfg key)) (hsame : routed H cfg2 key = routed H cfg key)
    (hs : m.deref value = some v) :
    (serf_set_config_string H m cfg key value copy_flags).1 = APR_SUCCESS ∧
    (serf_get_config_string H (serf_set_config_string H m cfg key value copy_flags).2
      cfg2 key).1 = APR_SUCCESS ∧
    (serf_set_config_string H m cfg key value copy_flags).2.deref
      (serf_get_config_string H (serf_set_config_string H m cfg key value copy_flags).2
        cfg2 key).2 = some v := by
  obtain ⟨a, b⟩ := serf_set_config_string_stored H m cfg key value copy_flags v hv hs
  have hr : routed H cfg2 key ≠ 0 := by rw [hsame]; have := hv.1; omega
  rw [serf_get_config_string_eq, if_neg hr, hsame]
  exact ⟨a, rfl, b⟩

/-- C1 (round trip): on a well-formed store, for every view that
`serf_get_config_from_store` returned, every key whose routed namespace is set
in the view and every string `v` of the caller, `serf_set_config_string`
returns `APR_SUCCESS` (whatever the copy flags, `SERF_CONFIG_COPY_VALUE` among
them), and `serf_get_config_string` on the same view and key then returns
`APR_SUCCESS` and a pointer to exactly `v`. -/
theorem C1_round_trip (H : serf_h) (m : Memory) (ctx : serf_context_t)
    (conn : Option serf_connection_t) (out_pool : Nat) (pool_status : apr_status_t)
    (cfg : serf_config_t) (m1 : Memory) (key value copy_flags : Nat) (v : String)
    (hwf : WF m ctx.config_store)
    (hres : serf_get_config_from_store m ctx conn out_pool pool_status =
      (APR_SUCCESS, some cfg, m1))
    (hr : routed H cfg key ≠ 0) (hs : m1.deref value = some v) :
    (serf_set_config_string H m1 cfg key value copy_flags).1 = APR_SUCCESS ∧
    (serf_get_config_string H (serf_set_config_string H m1 cfg key value copy_flags).2
      cfg key).1 = APR_SUCCESS ∧
    (serf_set_config_string H m1 cfg key value copy_flags).2.deref
      (serf_get_config_string H (serf_set_config_string H m1 cfg key value copy_flags).2
        cfg key).2 = some v := by
  obtain ⟨w, iv, _, _⟩ := view_of_resolve m ctx conn out_pool pool_status _ cfg m1 hwf hres
  exact set_then_get H m1 cfg cfg key value copy_flags v
    (routed_of_IsView H m1 ctx.config_store cfg key w iv hr).1 rfl hs

/-- C1 at the example store: the view of `connA`, the key
`serf_config_host_port`, the string `"443"` and the flag
`SERF_CONFIG_COPY_VALUE`. -/
theorem C1_round_trip_witness :
    (serf_set_config_string H0 m1A cfgA (serf_config_host_port H0) 1
      H0.SERF_CONFIG_COPY_VALUE).1 = APR_SUCCESS ∧
    (serf_get_config_string H0
      (serf_set_config_string H0 m1A cfgA (serf_config_host_port H0) 1
        H0.SERF_CONFIG_COPY_VALUE).2 cfgA (serf_config_host_port H0)).1 = APR_SUCCESS ∧
    (serf_set_config_string H0 m1A cfgA (serf_config_host_port H0) 1
        H0.SERF_CONFIG_COPY_VALUE).2.deref
      (serf_get_config_string H0
        (serf_set_config_string H0 m1A cfgA (serf_config_host_port H0) 1
          H0.SERF_CONFIG_COPY_VALUE).2 cfgA (serf_config_host_port H0)).2 = some "443" :=
  C1_round_trip H0 m0 ctx0 (some connA) 9 APR_SUCCESS cfgA m1A (serf_config_host_port H0) 1
    H0.SERF_CONFIG_COPY_VALUE "443" (by decide) (by decide) (by decide) (by decide)


/-- A key tagged PerHost or PerConnection is routed to no namespace in a view
without host and connection namespace. -/
theorem routed_unset (H : serf_h) (cfg : serf_config_t) (key : Nat)
    (hh : cfg.per_host = 0) (hc : cfg.per_conn = 0)
    (ht : tagged H key .PerHost ∨ tagged H key .PerConnection) : routed H cfg key = 0 := by
  unfold routed
  rcases ht with ht | ht
  · obtain ⟨a, b, _⟩ := ht
    rw [if_neg (not_not.mpr a), if_pos b, hh]
  · obtain ⟨a, b, _⟩ := ht
    rw [if_neg (not_not.mpr a), if_neg (not_not.mpr b), hc]

/-- C2 (scope rejection): on the view that `serf_get_config_from_store`
returns for no connection, for every key tagged PerHost or PerConnection,
`serf_get_config_string` and `serf_set_config_string` both return
`APR_EINVAL`; the result of the get is not the result `(APR_SUCCESS, NULL)`
of an absent key and the set does not succeed. -/
theorem C2_scope_rejection (H : serf_h) (m : Memory) (ctx : serf_context_t)
    (out_pool : Nat) (pool_status : apr_status_t) (cfg : serf_config_t) (m1 : Memory)
    (key value copy_flags : Nat)
    (hres : serf_get_config_from_store m ctx none out_pool pool_status =
      (APR_SUCCESS, some cfg, m1))
    (ht : tagged H key .PerHost ∨ tagged H key .PerConnection) :
    serf_get_config_string H m1 cfg key = (APR_EINVAL, 0) ∧
    (serf_set_config_string H m1 cfg key value copy_flags).1 = APR_EINVAL ∧
    serf_get_config_string H m1 cfg key ≠ (APR_SUCCESS, 0) ∧
    (serf_set_config_string H m1 cfg key value copy_flags).1 ≠ APR_SUCCESS := by
  rw [serf_get_config_from_store_none] at hres
  simp only [Prod.mk.injEq, Option.some.injEq, true_and] at hres
  obtain ⟨hcfg, _⟩ := hres
  have hr : routed H cfg key = 0 := routed_unset H cfg key (by rw [← hcfg]) (by rw [← hcfg]) ht
  rw [serf_get_config_string_eq, serf_set_config_string_eq, if_pos hr, if_pos hr]
  have hne : APR_EINVAL ≠ APR_SUCCESS := by decide
  exact ⟨rfl, rfl, fun h => hne (congrArg Prod.fst h), fun h => hne h⟩

/-- C2 at the example store, for the key `serf_config_host_name`. -/
theorem C2_scope_rejection_witness :
    tagged H0 (serf_config_host_name H0) .PerHost ∧
    serf_get_config_string H0 m0 cfgN (serf_config_host_name H0) = (APR_EINVAL, 0) ∧
    (serf_set_config_string H0 m0 cfgN (serf_config_host_name H0) 1 2).1 = APR_EINVAL ∧
    serf_get_config_string H0 m0 cfgN (serf_config_host_name H0) ≠ (APR_SUCCESS, 0) ∧
    (serf_set_config_string H0 m0 cfgN (serf_config_host_name H0) 1 2).1 ≠ APR_SUCCESS :=
  ⟨by decide,
   C2_scope_rejection H0 m0 ctx0 9 APR_SUCCESS cfgN m0 (serf_config_host_name H0) 1 2
     (by decide) (Or.inl (by decide))⟩

/-- C3 (atomicity on InvalidScope): when the namespace that the key is routed
to is unset in the view, `serf_set_config_string` returns `APR_EINVAL` and
every hash table of the memory, so every namespace of the store, is as
before, whatever the value and the copy flags. -/
theorem C3_invalid_scope_no_mutation (H : serf_h) (m : Memory) (cfg : serf_config_t)
    (key value copy_flags : Nat) (hr : routed H cfg key = 0) :
    (serf_set_config_string H m cfg key value copy_flags).1 = APR_EINVAL ∧
    (serf_set_config_string H m cfg key value copy_flags).2.hashes = m.hashes := by
  rw [serf_set_config_string_eq, if_pos hr]
  exact ⟨rfl, (copied_spec H m cfg.pool value copy_flags).1⟩

/-- C3 at the example store: a PerHost key on the view without connection,
with the copy flag. -/
theorem C3_invalid_scope_no_mutation_witness :
    routed H0 cfgN (serf_config_host_name H0) = 0 ∧
    (serf_set_config_string H0 m1A cfgN (serf_config_host_name H0) 1 2).1 = APR_EINVAL ∧
    (serf_set_config_string H0 m1A cfgN (serf_config_host_name H0) 1 2).2.hashes = m1A.hashes :=
  ⟨by decide,
   C3_invalid_scope_no_mutation H0 m1A cfgN (serf_config_host_name H0) 1 2 (by decide)⟩

/-- C4 (absent key): when the namespace that the key is routed to is set in
the view and holds no entry for the key, `serf_get_config_string` returns
`APR_SUCCESS` and `NULL`; on every view in which the routed namespace is unset
it returns `APR_EINVAL` and `NULL`, a different result. -/
theorem C4_absent_key (H : serf_h) (m : Memory) (cfg : serf_config_t) (key : Nat)
    (hr : routed H cfg key ≠ 0)
    (habs : ∀ e ∈ m.hash (routed H cfg key), e.1 ≠ apr_hash_key.key key) :
    serf_get_config_string H m cfg key = (APR_SUCCESS, 0) ∧
    ∀ cfg2, routed H cfg2 key = 0 →
      serf_get_config_string H m cfg2 key = (APR_EINVAL, 0) ∧
      serf_get_config_string H m cfg2 key ≠ serf_get_config_string H m cfg key := by
  have e : serf_get_config_string H m cfg key = (APR_SUCCESS, 0) := by
    rw [serf_get_config_string_eq, if_neg hr, hash_find_absent _ _ habs]
  refine ⟨e, fun cfg2 h2 => ?_⟩
  rw [e, serf_get_config_string_eq, if_pos h2]
  exact ⟨rfl, by decide⟩

/-- C4 at the example store: the key `serf_config_host_port` has no entry in
the host namespace of the view of `connA`. -/
theorem C4_absent_key_witness :
    routed H0 cfgA (serf_config_host_port H0) ≠ 0 ∧
    serf_get_config_string H0 m1A cfgA (serf_config_host_port H0) = (APR_SUCCESS, 0) ∧
    ∀ cfg2, routed H0 cfg2 (serf_config_host_port H0) = 0 →
      serf_get_config_string H0 m1A cfg2 (serf_config_host_port H0) = (APR_EINVAL, 0) ∧
      serf_get_config_string H0 m1A cfg2 (serf_config_host_port H0) ≠
        serf_get_config_string H0 m1A cfgA (serf_config_host_port H0) :=
  ⟨by decide,
   C4_absent_key H0 m1A cfgA (serf_config_host_port H0) (by decide) (by decide)⟩

/-- C10 (no connection): on a well-formed store `serf_get_config_from_store`
without a connection returns `APR_SUCCESS`, the view whose context reference
is the context namespace of the store and whose host and connection references
are `NULL`, and the memory as it was, so that both index tables are unchanged;
for a key tagged Context, `serf_set_config_string` and
`serf_get_config_string` on it return `APR_SUCCESS`. -/
theorem C10_no_connection (H : serf_h) (m : Memory) (ctx : serf_context_t)
    (out_pool : Nat) (pool_status : apr_status_t) (key value copy_flags : Nat)
    (hwf : WF m ctx.config_store) (ht : tagged H key .Context) :
    serf_get_config_from_store m ctx none out_pool pool_status =
      (APR_SUCCESS,
        some { pool := out_pool, per_context := ctx.config_store.per_context,
               per_host := 0, per_conn := 0 }, m) ∧
    (serf_set_config_string H m
      { pool := out_pool, per_context := ctx.config_store.per_context,
        per_host := 0, per_conn := 0 } key value copy_flags).1 = APR_SUCCESS ∧
    (serf_get_config_string H m
      { pool := out_pool, per_context := ctx.config_store.per_context,
        per_host := 0, per_conn := 0 } key).1 = APR_SUCCESS ∧
    (serf_get_config_string H
      (serf_set_config_string H m
        { pool := out_pool, per_context := ctx.config_store.per_context,
          per_host := 0, per_conn := 0 } key value copy_flags).2
      { pool := out_pool, per_context := ctx.config_store.per_context,
        per_host := 0, per_conn := 0 } key).1 = APR_SUCCESS := by
  have hr : routed H ⟨out_pool, ctx.config_store.per_context, 0, 0⟩ key =
      ctx.config_store.per_context := by
    unfold routed
    rw [if_pos ht.1]
  have hne : ctx.config_store.per_context ≠ 0 := by have := hwf.1.1; omega
  refine ⟨rfl, ?_, ?_, ?_⟩
  · rw [serf_set_config_string_eq, hr, if_neg hne]
  · rw [serf_get_config_string_eq, hr, if_neg hne]
  · rw [serf_get_config_string_eq, hr, if_neg hne]

/-- C10 at the example store, for the Context key `0x10000001`. -/
theorem C10_no_connection_witness :
    WF m0 ctx0.config_store ∧ tagged H0 0x10000001 .Context ∧
    serf_get_config_from_store m0 ctx0 none 9 APR_SUCCESS = (APR_SUCCESS, some cfgN, m0) ∧
    (serf_set_config_string H0 m0 cfgN 0x10000001 1 2).1 = APR_SUCCESS ∧
    (serf_get_config_string H0 m0 cfgN 0x10000001).1 = APR_SUCCESS ∧
    (serf_get_config_string H0 (serf_set_config_string H0 m0 cfgN 0x10000001 1 2).2
      cfgN 0x10000001).1 = APR_SUCCESS :=
  ⟨by decide, by decide,
   C10_no_connection H0 m0 ctx0 9 APR_SUCCESS 0x10000001 1 2 (by decide) (by decide)⟩


/-- A call of `serf_get_config_from_store` with a connection that returns
`APR_SUCCESS` was given a temporary pool. -/
theorem pool_status_of_success (m : Memory) (ctx : serf_context_t) (c : serf_connection_t)
    (out_pool : Nat) (pool_status : apr_status_t) (x : Option serf_config_t) (m1 : Memory)
    (h : serf_get_config_from_store m ctx (some c) out_pool pool_status = (APR_SUCCESS, x, m1)) :
    pool_status = APR_SUCCESS := by
  by_contra hne
  rw [serf_get_config_from_store_fail m ctx c out_pool pool_status hne] at h
  exact hne (congrArg Prod.fst h)

/-- The facts on a view that a successful `serf_get_config_from_store` with a
connection returned. -/
theorem view_of_resolve_some (m : Memory) (ctx : serf_context_t) (c : serf_connection_t)
    (out_pool : Nat) (pool_status : apr_status_t) (cfg : serf_config_t) (m1 : Memory)
    (hwf : WF m ctx.config_store)
    (hres : serf_get_config_from_store m ctx (some c) out_pool pool_status =
      (APR_SUCCESS, some cfg, m1)) :
    cfg.pool = out_pool ∧ cfg.per_context = ctx.config_store.per_context ∧
    cfg.per_conn ≠ 0 ∧ cfg.per_host ≠ 0 ∧
    hash_find (m1.hash ctx.config_store.per_conn) (.str (conn_key_for_conn c)) = cfg.per_conn ∧
    hash_find (m1.hash ctx.config_store.per_host) (.str (host_key_for_conn c)) = cfg.per_host ∧
    WF m1 ctx.config_store ∧ IsView m1 ctx.config_store cfg ∧ Grows ctx.config_store m m1 ∧
    new_strings_in m m1 ctx.config_store.pool ∧
    (∀ p, p ≤ m.hashes.length → p ≠ ctx.config_store.per_host →
      p ≠ ctx.config_store.per_conn → m1.hash p = m.hash p) := by
  have hs := pool_status_of_success m ctx c out_pool pool_status _ m1 hres
  subst hs
  obtain ⟨cfg2, m2, e, rest⟩ := serf_get_config_from_store_spec m ctx c out_pool hwf
  rw [e] at hres
  simp only [Prod.mk.injEq, Option.some.injEq, true_and] at hres
  obtain ⟨e1, e2⟩ := hres
  subst e1 e2
  exact rest

/-- C5 (identity stability): on a well-formed store, after
`serf_get_config_from_store` returned a view for a connection, and after any
sequence of further operations of the client (resolving views for any
connections, setting and getting values through any of its views, calling the
functions that only return `APR_ENOTIMPL`), a second
call for the same connection returns `APR_SUCCESS` and a view with the same
host namespace pointer and the same connection namespace pointer, and leaves
the memory as it is: it makes no namespace. -/
theorem C5_identity_stability (H : serf_h) (m : Memory) (ctx : serf_context_t)
    (c : serf_connection_t) (out_pool out_pool2 : Nat) (pool_status : apr_status_t)
    (cfg : serf_config_t) (m1 : Memory) (views : List serf_config_t) (ops : List Op)
    (hwf : WF m ctx.config_store)
    (hviews : ∀ v ∈ views, IsView m ctx.config_store v)
    (hres : serf_get_config_from_store m ctx (some c) out_pool pool_status =
      (APR_SUCCESS, some cfg, m1)) :
    ∃ cfg2,
      serf_get_config_from_store
          (Client.run H ctx { mem := m1, views := views ++ [cfg] } ops).mem ctx (some c)
          out_pool2 APR_SUCCESS =
        (APR_SUCCESS, some cfg2,
          (Client.run H ctx { mem := m1, views := views ++ [cfg] } ops).mem) ∧
      cfg2.per_host = cfg.per_host ∧ cfg2.per_conn = cfg.per_conn := by
  obtain ⟨_, _, hc0, hh0, hc, hh, w, iv, g, _, _⟩ :=
    view_of_resolve_some m ctx c out_pool pool_status cfg m1 hwf hres
  have hv1 : ∀ v ∈ views ++ [cfg], IsView m1 ctx.config_store v := by
    intro v hv
    rcases List.mem_append.mp hv with hv | hv
    · exact IsView_of_Grows _ _ _ _ g (hviews v hv)
    · rw [List.mem_singleton.mp hv]; exact iv
  obtain ⟨_, _, g2⟩ := Client.run_inv H ctx ops { mem := m1, views := views ++ [cfg] } w hv1
  have hc2 := g2.2.2.1 (.str (conn_key_for_conn c)) (by rw [hc]; exact hc0)
  have hh2 := g2.2.1 (.str (host_key_for_conn c)) (by rw [hh]; exact hh0)
  have hc3 : hash_find ((Client.run H ctx { mem := m1, views := views ++ [cfg] } ops).mem.hash
      ctx.config_store.per_conn) (.str (conn_key_for_conn c)) = cfg.per_conn := by
    rw [hc2]; exact hc
  have hh3 : hash_find ((Client.run H ctx { mem := m1, views := views ++ [cfg] } ops).mem.hash
      ctx.config_store.per_host) (.str (host_key_for_conn c)) = cfg.per_host := by
    rw [hh2]; exact hh
  refine ⟨_, serf_get_config_from_store_found _ ctx c out_pool2 (by rw [hc3]; exact hc0)
    (by rw [hh3]; exact hh0), hh3, hc3⟩

/-- C5 at the example store: between the two calls for `connA` the client
resolves a view for `connB`, sets a PerHost value through the first view and a
PerConnection value through the second, calls
`serf__remove_connection_from_config_store` for `connA`, and resolves a view
for no connection. -/
theorem C5_identity_stability_witness :
    WF m0 ctx0.config_store ∧
    serf_get_config_from_store m0 ctx0 (some connA) 9 APR_SUCCESS =
      (APR_SUCCESS, some cfgA, m1A) ∧
    ∃ cfg2,
      serf_get_config_from_store
          (Client.run H0 ctx0 { mem := m1A, views := [] ++ [cfgA] } opsA).mem ctx0 (some connA)
          10 APR_SUCCESS =
        (APR_SUCCESS, some cfg2,
          (Client.run H0 ctx0 { mem := m1A, views := [] ++ [cfgA] } opsA).mem) ∧
      cfg2.per_host = cfgA.per_host ∧ cfg2.per_conn = cfgA.per_conn :=
  ⟨by decide, by decide,
   C5_identity_stability H0 m0 ctx0 connA 9 10 APR_SUCCESS cfgA m1A [] opsA (by decide)
     (by decide) (by decide)⟩


theorem routed_congr (H : serf_h) (cfg cfg2 : serf_config_t) (key : Nat)
    (h1 : cfg2.per_context = cfg.per_context) (h2 : cfg2.per_host = cfg.per_host)
    (h3 : cfg2.per_conn = cfg.per_conn) : routed H cfg2 key = routed H cfg key := by
  unfold routed
  rw [h1, h2, h3]

/-- A `serf_set_config_string` that returns `APR_SUCCESS` found the routed
namespace set. -/
theorem routed_of_set_success (H : serf_h) (m : Memory) (cfg : serf_config_t)
    (key value copy_flags : Nat)
    (h : (serf_set_config_string H m cfg key value copy_flags).1 = APR_SUCCESS) :
    routed H cfg key ≠ 0 := by
  intro hr
  rw [serf_set_config_string_eq, if_pos hr] at h
  exact (by decide : APR_EINVAL ≠ APR_SUCCESS) h

/-- What holds of the persistence across views, while the pool of the first
view lives: on a well-formed store, when `serf_set_config_string` of a string
`v` returned `APR_SUCCESS` on a view resolved for a connection (or for none),
a call of `serf_get_config_from_store` for the same connection right after it
returns `APR_SUCCESS` and a view, and `serf_get_config_string` with the same
key on that view returns `APR_SUCCESS` and a pointer to `v`. -/
theorem set_persists_while_pool_lives (H : serf_h) (m : Memory) (ctx : serf_context_t)
    (conn : Option serf_connection_t) (out_pool out_pool2 : Nat) (pool_status : apr_status_t)
    (cfg : serf_config_t) (m1 : Memory) (key value copy_flags : Nat) (v : String)
    (hwf : WF m ctx.config_store)
    (hres : serf_get_config_from_store m ctx conn out_pool pool_status =
      (APR_SUCCESS, some cfg, m1))
    (hs : m1.deref value = some v)
    (hset : (serf_set_config_string H m1 cfg key value copy_flags).1 = APR_SUCCESS) :
    ∃ cfg2 m3,
      serf_get_config_from_store (serf_set_config_string H m1 cfg key value copy_flags).2 ctx
        conn out_pool2 APR_SUCCESS = (APR_SUCCESS, some cfg2, m3) ∧
      (serf_get_config_string H m3 cfg2 key).1 = APR_SUCCESS ∧
      m3.deref (serf_get_config_string H m3 cfg2 key).2 = some v := by
  have hr := routed_of_set_success H m1 cfg key value copy_flags hset
  obtain ⟨w, iv, _, _⟩ := view_of_resolve m ctx conn out_pool pool_status _ cfg m1 hwf hres
  have hvalid := (routed_of_IsView H m1 ctx.config_store cfg key w iv hr).1
  cases conn with
  | none =>
    rw [serf_get_config_from_store_none] at hres
    simp only [Prod.mk.injEq, Option.some.injEq, true_and] at hres
    obtain ⟨hcfg, _⟩ := hres
    refine ⟨_, _, serf_get_config_from_store_none _ ctx out_pool2 APR_SUCCESS, ?_⟩
    have hsame := routed_congr H cfg
      { pool := out_pool2, per_context := ctx.config_store.per_context, per_host := 0,
        per_conn := 0 } key (by rw [← hcfg]) (by rw [← hcfg]) (by rw [← hcfg])
    exact (set_then_get H m1 cfg _ key value copy_flags v hvalid hsame hs).2
  | some c =>
    obtain ⟨_, hctx, hc0, hh0, hc, hh, _, _, _, _, _⟩ :=
      view_of_resolve_some m ctx c out_pool pool_status cfg m1 hwf hres
    obtain ⟨_, ih, ic⟩ :=
      serf_set_config_string_index H m1 ctx.config_store cfg key value copy_flags w iv
    have hc2 : hash_find ((serf_set_config_string H m1 cfg key value copy_flags).2.hash
        ctx.config_store.per_conn) (.str (conn_key_for_conn c)) = cfg.per_conn := by
      rw [ic]; exact hc
    have hh2 : hash_find ((serf_set_config_string H m1 cfg key value copy_flags).2.hash
        ctx.config_store.per_host) (.str (host_key_for_conn c)) = cfg.per_host := by
      rw [ih]; exact hh
    refine ⟨_, _, serf_get_config_from_store_found _ ctx c out_pool2 (by rw [hc2]; exact hc0)
      (by rw [hh2]; exact hh0), ?_⟩
    have hsame := routed_congr H cfg
      { pool := out_pool2, per_context := ctx.config_store.per_context,
        per_host := hash_find ((serf_set_config_string H m1 cfg key value copy_flags).2.hash
          ctx.config_store.per_host) (.str (host_key_for_conn c)),
        per_conn := hash_find ((serf_set_config_string H m1 cfg key value copy_flags).2.hash
          ctx.config_store.per_conn) (.str (conn_key_for_conn c)) } key
      hctx.symm hh2 hc2
    exact (set_then_get H m1 cfg _ key value copy_flags v hvalid hsame hs).2

/-- C8 fails at the example store (scenario 2 of the specification with the
first view released): the view of `connA` is resolved with the pool `9`,
`serf_config_host_port` is set to `"443"` through it with the flag
`SERF_CONFIG_COPY_VALUE`, and the view is released, its pool destroyed.  The
view that `serf_get_config_from_store` returns for `connA` afterwards has the
namespaces of before, and `serf_get_config_string` through it returns
`APR_SUCCESS` and the pointer that was stored, but the duplicate of `"443"`
was in storage of the pool `9` and is gone: the value did not live in the
store. -/
theorem C8_value_lost_with_first_view :
    serf_get_config_from_store m0 ctx0 (some connA) 9 APR_SUCCESS =
      (APR_SUCCESS, some cfgA, m1A) ∧
    (serf_set_config_string H0 m1A cfgA (serf_config_host_port H0) 1
      H0.SERF_CONFIG_COPY_VALUE).1 = APR_SUCCESS ∧
    (serf_set_config_string H0 m1A cfgA (serf_config_host_port H0) 1
      H0.SERF_CONFIG_COPY_VALUE).2.deref
        (serf_get_config_string H0
          (serf_set_config_string H0 m1A cfgA (serf_config_host_port H0) 1
            H0.SERF_CONFIG_COPY_VALUE).2 cfgA (serf_config_host_port H0)).2 = some "443" ∧
    serf_get_config_from_store
      (apr_pool_destroy
        (serf_set_config_string H0 m1A cfgA (serf_config_host_port H0) 1
          H0.SERF_CONFIG_COPY_VALUE).2 cfgA.pool)
      ctx0 (some connA) 10 APR_SUCCESS =
      (APR_SUCCESS, some cfgA2,
        apr_pool_destroy
          (serf_set_config_string H0 m1A cfgA (serf_config_host_port H0) 1
            H0.SERF_CONFIG_COPY_VALUE).2 cfgA.pool) ∧
    (serf_get_config_string H0
      (apr_pool_destroy
        (serf_set_config_string H0 m1A cfgA (serf_config_host_port H0) 1
          H0.SERF_CONFIG_COPY_VALUE).2 cfgA.pool)
      cfgA2 (serf_config_host_port H0)).1 = APR_SUCCESS ∧
    (apr_pool_destroy
        (serf_set_config_string H0 m1A cfgA (serf_config_host_port H0) 1
          H0.SERF_CONFIG_COPY_VALUE).2 cfgA.pool).deref
      (serf_get_config_string H0
        (apr_pool_destroy
          (serf_set_config_string H0 m1A cfgA (serf_config_host_port H0) 1
            H0.SERF_CONFIG_COPY_VALUE).2 cfgA.pool)
        cfgA2 (serf_config_host_port H0)).2 = none := by
  decide

/-- The example of scenario 3 evaluated: `serf_get_config_from_store` returns
a view for `connB` with the host namespace of the view of `connA`, and
`serf_get_config_string` through it reads `"v1"`. -/
theorem scenario3_value :
    (serf_get_config_from_store
      (Client.run H0 ctx0 { mem := m1A, views := [] ++ [cfgA] }
        [.set 0 (serf_config_host_name H0) 2 2]).mem ctx0 (some connB)
      10 APR_SUCCESS).2.1 = some { pool := 10, per_context := 1, per_host := 5, per_conn := 6 } ∧
    (Client.run H0 ctx0 { mem := m1A, views := [] ++ [cfgA] }
      [.set 0 (serf_config_host_name H0) 2 2]).mem.deref
      (serf_get_config_string H0
        (serf_get_config_from_store
          (Client.run H0 ctx0 { mem := m1A, views := [] ++ [cfgA] }
            [.set 0 (serf_config_host_name H0) 2 2]).mem ctx0 (some connB)
          10 APR_SUCCESS).2.2
        { pool := 10, per_context := 1, per_host := 5, per_conn := 6 }
        (serf_config_host_name H0)).2 = some "v1" := by
  decide

theorem no_entry_of_find_null (t : apr_hash_t) (k : apr_hash_key)
    (hv : ∀ p ∈ t.map Prod.snd, p ≠ 0) (h : hash_find t k = 0) : ∀ e ∈ t, e.1 ≠ k := by
  induction t with
  | nil => intro e he; exact absurd he (List.not_mem_nil _)
  | cons e1 t ih =>
    obtain ⟨k1, v1⟩ := e1
    intro e he hk
    by_cases h1 : k1 = k
    · subst h1
      rw [hash_find_cons_self] at h
      exact hv v1 (by simp) h
    · rw [hash_find_cons_ne _ _ _ _ h1] at h
      rcases List.mem_cons.mp he with he | he
      · rw [he] at hk; exact h1 hk
      · exact ih (fun p hp => hv p (by simp only [List.map_cons, List.mem_cons]; exact Or.inr hp))
          h e he hk

/-- One step `find_or_make` changes its index table by one new entry at
most. -/
theorem find_or_make_entry (m : Memory) (pool idx : Nat) (key : String)
    (hv : m.valid_hash idx) (hnz : ∀ p ∈ index_values m idx, p ≠ 0) :
    same_or_new_entry m (find_or_make m pool idx key).1 idx := by
  by_cases hf : hash_find (m.hash idx) (.str key) = 0
  · obtain ⟨_, e2, _, e4, e5, _⟩ := find_or_make_made m pool idx key hv hnz hf
    refine Or.inr ⟨.str key, m.hashes.length + 1, no_entry_of_find_null _ _ hnz hf, ?_, ?_,
      e5, e4⟩
    · intro h; have := h.2; omega
    · exact ⟨Nat.succ_pos _, by rw [e2]⟩
  · rw [find_or_make_found m pool idx key hf]
    exact Or.inl rfl

/-- C9 (frame of resolving): on a well-formed store, whatever the connection
and whether or not the temporary pool can be made,
`serf_get_config_from_store` leaves every namespace of the store with exactly
the entries it had, as it leaves every table of the memory but the two index
tables, and it leaves every string that exists behind its pointer; the strings
it makes are in storage of the pool of the store (the copies of the keys of
new entries).  Each of the two index tables keeps its entries and gets one new
entry at most, under a host or connection identity that had none, for a
namespace that did not exist before and is empty. -/
theorem C9_resolve_frame (m : Memory) (ctx : serf_context_t)
    (conn : Option serf_connection_t) (out_pool : Nat) (pool_status : apr_status_t)
    (hwf : WF m ctx.config_store) :
    (∀ p, is_namespace m ctx.config_store p →
      (serf_get_config_from_store m ctx conn out_pool pool_status).2.2.hash p = m.hash p) ∧
    (∀ p, m.valid_hash p → p ≠ ctx.config_store.per_host → p ≠ ctx.config_store.per_conn →
      (serf_get_config_from_store m ctx conn out_pool pool_status).2.2.hash p = m.hash p) ∧
    (∀ p w, m.deref p = some w →
      (serf_get_config_from_store m ctx conn out_pool pool_status).2.2.deref p = some w) ∧
    new_strings_in m (serf_get_config_from_store m ctx conn out_pool pool_status).2.2
      ctx.config_store.pool ∧
    same_or_new_entry m (serf_get_config_from_store m ctx conn out_pool pool_status).2.2
      ctx.config_store.per_host ∧
    same_or_new_entry m (serf_get_config_from_store m ctx conn out_pool pool_status).2.2
      ctx.config_store.per_conn := by
  obtain ⟨_, _, _, hstr, hfr⟩ :=
    serf_get_config_from_store_inv m ctx conn out_pool pool_status hwf
  refine ⟨?_, fun p hp h1 h2 => hfr p hp.2 h1 h2,
    fun p w hp => deref_of_new_strings_in _ _ _ p w hstr hp, hstr, ?_⟩
  · intro p hp
    rcases hp with hp | hp
    · rw [hp]
      exact hfr _ hwf.1.2 hwf.2.2.2.1 hwf.2.2.2.2.1
    · obtain ⟨a, _, c, d⟩ := hwf.2.2.2.2.2.2.1 p hp
      exact hfr p a.2 c d
  · cases conn with
    | none => exact ⟨Or.inl rfl, Or.inl rfl⟩
    | some c =>
      by_cases hs : pool_status = APR_SUCCESS
      · subst hs
        rw [serf_get_config_from_store_some]
        have w1 := WF_find_or_make_conn m ctx.config_store ctx.config_store.pool
          (conn_key_for_conn c) hwf
        have s1 := find_or_make_entry m ctx.config_store.pool ctx.config_store.per_conn
          (conn_key_for_conn c) hwf.2.2.1 (WF_conn_ne_zero m _ hwf)
        obtain ⟨_, _, _, _, _, a6, _, a8⟩ :=
          find_or_make_spec m ctx.config_store.pool ctx.config_store.per_conn
            (conn_key_for_conn c) hwf.2.2.1 (WF_conn_ne_zero m _ hwf)
        have s2 := find_or_make_entry _ ctx.config_store.pool ctx.config_store.per_host
          (host_key_for_conn c) w1.2.1 (WF_host_ne_zero _ _ w1)
        obtain ⟨_, _, _, _, _, b6, _, b8⟩ :=
          find_or_make_spec _ ctx.config_store.pool ctx.config_store.per_host
            (host_key_for_conn c) w1.2.1 (WF_host_ne_zero _ _ w1)
        have hhost1 : (find_or_make m ctx.config_store.pool ctx.config_store.per_conn
            (conn_key_for_conn c)).1.hash ctx.config_store.per_host =
            m.hash ctx.config_store.per_host :=
          a8 _ hwf.2.2.2.2.2.1 hwf.2.1.2
        constructor
        · rcases s2 with s2 | ⟨key, p, n1, n2, n3, n4, n5⟩
          · exact Or.inl (by rw [s2, hhost1])
          · refine Or.inr ⟨key, p, ?_, ?_, n3, n4, ?_⟩
            · rw [← hhost1]; exact n1
            · intro h; exact n2 ⟨h.1, Nat.le_trans h.2 a6⟩
            · rw [n5, hhost1]
        · have hconn2 : ∀ q, q ≠ ctx.config_store.per_host →
              (find_or_make m ctx.config_store.pool ctx.config_store.per_conn
                (conn_key_for_conn c)).1.valid_hash q →
              (find_or_make (find_or_make m ctx.config_store.pool ctx.config_store.per_conn
                (conn_key_for_conn c)).1 ctx.config_store.pool
                ctx.config_store.per_host (host_key_for_conn c)).1.hash q =
              (find_or_make m ctx.config_store.pool ctx.config_store.per_conn
                (conn_key_for_conn c)).1.hash q :=
            fun q hq hv => b8 q hq hv.2
          rcases s1 with s1 | ⟨key, p, n1, n2, n3, n4, n5⟩
          · exact Or.inl (by rw [hconn2 _ (Ne.symm hwf.2.2.2.2.2.1) w1.2.2.1, s1])
          · have hp : p ≠ ctx.config_store.per_host := by
              intro h; rw [h] at n2; exact n2 hwf.2.1
            refine Or.inr ⟨key, p, n1, n2, ⟨n3.1, Nat.le_trans n3.2 b6⟩, ?_, ?_⟩
            · rw [hconn2 p hp n3]; exact n4
            · rw [hconn2 _ (Ne.symm hwf.2.2.2.2.2.1) w1.2.2.1]; exact n5
      · rw [serf_get_config_from_store_fail m ctx c out_pool pool_status hs]
        exact ⟨Or.inl rfl, Or.inl rfl⟩

/-- C9 at the example store: the view of `connA` was resolved on the store as
`serf__init_config_store` left it, and the PerConnection key `0x40000001` set
to `"v1"` through it (the memory `m2A`).  Resolving a view for `connD`, a new
connection to a new host, makes two namespaces, `6` and `7`, and two copies of
keys in the pool `1` of the store; the connection namespace `4` of `connA`
keeps its entry and the string behind it. -/
theorem C9_resolve_frame_witness :
    serf_get_config_from_store m0 ctx0 (some connA) 9 APR_SUCCESS =
      (APR_SUCCESS, some cfgA, m1A) ∧
    WF m2A ctx0.config_store ∧
    m2A.hash 4 = [(.key 0x40000001, 5)] ∧ m2A.deref 5 = some "v1" ∧
    (serf_get_config_from_store m2A ctx0 (some connD) 10 APR_SUCCESS).2.1 =
      some { pool := 10, per_context := 1, per_host := 7, per_conn := 6 } ∧
    (serf_get_config_from_store m2A ctx0 (some connD) 10 APR_SUCCESS).2.2.hash 4 =
      [(.key 0x40000001, 5)] ∧
    (serf_get_config_from_store m2A ctx0 (some connD) 10 APR_SUCCESS).2.2.deref 5 =
      some "v1" ∧
    (serf_get_config_from_store m2A ctx0 (some connD) 10 APR_SUCCESS).2.2.strings =
      m2A.strings ++ [(1, some "3000"), (1, some "http://z:80")] ∧
    (∀ p, is_namespace m2A ctx0.config_store p →
      (serf_get_config_from_store m2A ctx0 (some connD) 10 APR_SUCCESS).2.2.hash p =
        m2A.hash p) ∧
    (∀ p, m2A.valid_hash p → p ≠ ctx0.config_store.per_host → p ≠ ctx0.config_store.per_conn →
      (serf_get_config_from_store m2A ctx0 (some connD) 10 APR_SUCCESS).2.2.hash p =
        m2A.hash p) ∧
    (∀ p w, m2A.deref p = some w →
      (serf_get_config_from_store m2A ctx0 (some connD) 10 APR_SUCCESS).2.2.deref p =
        some w) ∧
    new_strings_in m2A (serf_get_config_from_store m2A ctx0 (some connD) 10 APR_SUCCESS).2.2
      ctx0.config_store.pool ∧
    same_or_new_entry m2A (serf_get_config_from_store m2A ctx0 (some connD) 10 APR_SUCCESS).2.2
      ctx0.config_store.per_host ∧
    same_or_new_entry m2A (serf_get_config_from_store m2A ctx0 (some connD) 10 APR_SUCCESS).2.2
      ctx0.config_store.per_conn :=
  ⟨by decide, by decide, by decide, by decide, by decide, by decide, by decide, by decide,
   C9_resolve_frame m2A ctx0 (some connD) 10 APR_SUCCESS (by decide)⟩

/-- C6 (connection isolation) fails at two connection objects whose addresses
agree in the lower 32 bits: `conn_key_for_conn` gives both the key `"1000"`,
`serf_get_config_from_store` returns views with one connection namespace, and
the PerConnection value `"v1"` set through the view of `connA` is returned by
`serf_get_config_string` through the view of `connC`. -/
theorem C6_truncated_address_shares_namespace :
    connA.addr ≠ connC.addr ∧
    tagged H0 0x40000001 .PerConnection ∧
    conn_key_for_conn connA = conn_key_for_conn connC ∧
    serf_get_config_from_store m0 ctx0 (some connA) 9 APR_SUCCESS =
      (APR_SUCCESS, some cfgA, m1A) ∧
    (serf_get_config_from_store m1A ctx0 (some connC) 10 APR_SUCCESS).1 = APR_SUCCESS ∧
    (serf_get_config_from_store m1A ctx0 (some connC) 10 APR_SUCCESS).2.1 = some cfgC ∧
    cfgC.per_conn = cfgA.per_conn ∧
    (serf_set_config_string H0
      (serf_get_config_from_store m1A ctx0 (some connC) 10 APR_SUCCESS).2.2
      cfgA 0x40000001 2 H0.SERF_CONFIG_COPY_VALUE).1 = APR_SUCCESS ∧
    (serf_get_config_string H0
      (serf_set_config_string H0
        (serf_get_config_from_store m1A ctx0 (some connC) 10 APR_SUCCESS).2.2
        cfgA 0x40000001 2 H0.SERF_CONFIG_COPY_VALUE).2 cfgC 0x40000001).1 = APR_SUCCESS ∧
    (serf_set_config_string H0
        (serf_get_config_from_store m1A ctx0 (some connC) 10 APR_SUCCESS).2.2
        cfgA 0x40000001 2 H0.SERF_CONFIG_COPY_VALUE).2.deref
      (serf_get_config_string H0
        (serf_set_config_string H0
          (serf_get_config_from_store m1A ctx0 (some connC) 10 APR_SUCCESS).2.2
          cfgA 0x40000001 2 H0.SERF_CONFIG_COPY_VALUE).2 cfgC 0x40000001).2 = some "v1" := by
  decide


theorem hex_digit_value_digitChar (d : Nat) (h : d < 16) :
    hex_digit_value (Nat.digitChar d) = d := by
  interval_cases d <;> decide

theorem hex_value_append (l : List Char) (c : Char) :
    hex_value (l ++ [c]) = 16 * hex_value l + hex_digit_value c := by
  unfold hex_value
  rw [List.foldl_append]
  rfl

/-- The digits that `%x` prints denote the number printed, when there are
digits enough. -/
theorem hex_value_hex_digits (fuel n : Nat) (h : n < 16 ^ fuel) :
    hex_value (hex_digits fuel n) = n := by
  induction fuel generalizing n with
  | zero =>
    have h0 : n = 0 := by simpa using h
    subst h0
    rfl
  | succ fuel ih =>
    unfold hex_digits
    split
    · rename_i hlt
      have := hex_value_append [] (Nat.digitChar n)
      simp only [List.nil_append] at this
      rw [this, hex_digit_value_digitChar n hlt]
      show 16 * 0 + n = n
      omega
    · have hdiv : n / 16 < 16 ^ fuel := by
        rw [Nat.div_lt_iff_lt_mul (by decide)]
        rw [pow_succ] at h
        exact h
      rw [hex_value_append, ih _ hdiv, hex_digit_value_digitChar _ (Nat.mod_lt _ (by decide))]
      omega

/-- The function `conn_key_for_conn` gives connection objects different keys
exactly when their addresses differ in the lower 32 bits. -/
theorem conn_key_for_conn_eq_iff (cA cB : serf_connection_t) :
    conn_key_for_conn cA = conn_key_for_conn cB ↔ cA.addr % 2 ^ 32 = cB.addr % 2 ^ 32 := by
  constructor
  · intro h
    unfold conn_key_for_conn apr_psprintf_x at h
    have hl : hex_digits 8 (cA.addr % 2 ^ 32) = hex_digits 8 (cB.addr % 2 ^ 32) :=
      congrArg String.data h
    have hA := hex_value_hex_digits 8 (cA.addr % 2 ^ 32) (Nat.mod_lt _ (by decide))
    have hB := hex_value_hex_digits 8 (cB.addr % 2 ^ 32) (Nat.mod_lt _ (by decide))
    rw [← hA, ← hB, hl]
  · intro h
    unfold conn_key_for_conn
    rw [h]

/-- Different keys of a table without a namespace entered twice lead to
different namespaces. -/
theorem hash_find_ne_of_nodup (t : apr_hash_t) (k1 k2 : apr_hash_key)
    (hnd : (t.map Prod.snd).Nodup) (hk : k1 ≠ k2) (h1 : hash_find t k1 ≠ 0) :
    hash_find t k1 ≠ hash_find t k2 := by
  induction t with
  | nil => exact absurd rfl h1
  | cons e t ih =>
    obtain ⟨k, v⟩ := e
    rw [List.map_cons, List.nodup_cons] at hnd
    obtain ⟨hv, hnd2⟩ := hnd
    by_cases e1 : k = k1
    · subst e1
      rw [hash_find_cons_self, hash_find_cons_ne _ _ _ _ hk] at *
      intro heq
      exact hv (heq ▸ hash_find_mem t k2 (by rw [← heq]; exact h1))
    · rw [hash_find_cons_ne _ _ _ _ e1] at h1 ⊢
      by_cases e2 : k = k2
      · subst e2
        rw [hash_find_cons_self]
        intro heq
        exact hv (heq ▸ hash_find_mem t k1 h1)
      · rw [hash_find_cons_ne _ _ _ _ e2]
        exact ih hnd2 h1

/-- What the code does keep of connection isolation: on a well-formed store,
two connection objects whose addresses differ in the lower 32 bits get
different connection namespaces, and a value set through the view of the one
under a key routed to the connection namespace leaves what
`serf_get_config_string` returns through the view of the other as it is. -/
theorem conn_isolation_low_bits (H : serf_h) (m : Memory) (ctx : serf_context_t)
    (cA cB : serf_connection_t) (outA outB : Nat) (pool_status : apr_status_t)
    (cfgA : serf_config_t) (m1 : Memory) (views : List serf_config_t) (ops : List Op)
    (hwf : WF m ctx.config_store)
    (hviews : ∀ v ∈ views, IsView m ctx.config_store v)
    (haddr : cA.addr % 2 ^ 32 ≠ cB.addr % 2 ^ 32)
    (hres : serf_get_config_from_store m ctx (some cA) outA pool_status =
      (APR_SUCCESS, some cfgA, m1)) :
    ∃ cfgB m2,
      serf_get_config_from_store
          (Client.run H ctx { mem := m1, views := views ++ [cfgA] } ops).mem ctx (some cB)
          outB APR_SUCCESS = (APR_SUCCESS, some cfgB, m2) ∧
      cfgB.per_conn ≠ cfgA.per_conn ∧
      ∀ key value copy_flags, routed H cfgA key = cfgA.per_conn →
        routed H cfgB key = cfgB.per_conn →
        serf_get_config_string H (serf_set_config_string H m2 cfgA key value copy_flags).2
          cfgB key = serf_get_config_string H m2 cfgB key := by
  obtain ⟨_, _, hc0, _, hc, _, w, iv, g, _, _⟩ :=
    view_of_resolve_some m ctx cA outA pool_status cfgA m1 hwf hres
  have hv1 : ∀ v ∈ views ++ [cfgA], IsView m1 ctx.config_store v := by
    intro v hv
    rcases List.mem_append.mp hv with hv | hv
    · exact IsView_of_Grows _ _ _ _ g (hviews v hv)
    · rw [List.mem_singleton.mp hv]; exact iv
  obtain ⟨w2, _, g2⟩ := Client.run_inv H ctx ops { mem := m1, views := views ++ [cfgA] } w hv1
  obtain ⟨cfgB, m2, e, _, _, _, _, hcB, _, w3, _, g3, _, _⟩ :=
    serf_get_config_from_store_spec
      (Client.run H ctx { mem := m1, views := views ++ [cfgA] } ops).mem ctx cB outB w2
  have hcA2 : hash_find ((Client.run H ctx { mem := m1, views := views ++ [cfgA] } ops).mem.hash
      ctx.config_store.per_conn) (.str (conn_key_for_conn cA)) = cfgA.per_conn := by
    rw [g2.2.2.1 _ (by rw [hc]; exact hc0)]; exact hc
  have hcA3 : hash_find (m2.hash ctx.config_store.per_conn) (.str (conn_key_for_conn cA)) =
      cfgA.per_conn := by
    rw [g3.2.2.1 _ (by rw [hcA2]; exact hc0)]; exact hcA2
  have hkey : apr_hash_key.str (conn_key_for_conn cA) ≠ .str (conn_key_for_conn cB) := by
    intro h
    exact haddr ((conn_key_for_conn_eq_iff cA cB).mp (apr_hash_key.str.inj h))
  have hnd : (index_values m2 ctx.config_store.per_conn).Nodup :=
    (List.nodup_append.mp w3.2.2.2.2.2.2.2).2.1
  have hne : cfgB.per_conn ≠ cfgA.per_conn := by
    rw [← hcB, ← hcA3]
    exact Ne.symm (hash_find_ne_of_nodup _ _ _ hnd hkey (by rw [hcA3]; exact hc0))
  refine ⟨cfgB, m2, e, hne, ?_⟩
  intro key value copy_flags rA rB
  obtain ⟨_, f2, _⟩ := serf_set_config_string_frame H m2 cfgA key value copy_flags
  rw [serf_get_config_string_eq, serf_get_config_string_eq, rB, f2 _ (by rw [rA]; exact hne)]


/-- In a view of a well-formed store the references that are set are three
different namespaces. -/
theorem scope_ref_injective (m : Memory) (s : serf__config_store_t) (cfg : serf_config_t)
    (hwf : WF m s) (hv : IsView m s cfg) (t1 t2 : ScopeTag) (hne : t1 ≠ t2)
    (h1 : scope_ref cfg t1 ≠ 0) : scope_ref cfg t1 ≠ scope_ref cfg t2 := by
  obtain ⟨h1c, _, _, _, _, _, h7, h8⟩ := hwf
  obtain ⟨v1, v2, v3⟩ := hv
  have hc0 : cfg.per_context ≠ 0 := by rw [v1]; have := h1c.1; omega
  have hhost : cfg.per_host ≠ 0 → cfg.per_host ∈ index_values m s.per_host := by
    intro h; rcases v2 with v2 | v2
    · exact absurd v2 h
    · exact v2
  have hconn : cfg.per_conn ≠ 0 → cfg.per_conn ∈ index_values m s.per_conn := by
    intro h; rcases v3 with v3 | v3
    · exact absurd v3 h
    · exact v3
  have hhc : cfg.per_host ≠ 0 → cfg.per_host ≠ cfg.per_context := by
    intro h; rw [v1]
    exact (h7 _ (List.mem_append_left _ (hhost h))).2.1
  have hcc : cfg.per_conn ≠ 0 → cfg.per_conn ≠ cfg.per_context := by
    intro h; rw [v1]
    exact (h7 _ (List.mem_append_right _ (hconn h))).2.1
  have hhn : cfg.per_host ≠ 0 → cfg.per_conn ≠ 0 → cfg.per_host ≠ cfg.per_conn := by
    intro ha hb heq
    have hd := (List.nodup_append.mp h8).2.2
    exact hd (hhost ha) (heq ▸ hconn hb)
  cases t1 <;> cases t2 <;> simp only [scope_ref] at h1 ⊢
  · exact absurd rfl hne
  · intro heq; exact hhc (heq ▸ hc0) heq.symm
  · intro heq; exact hcc (heq ▸ hc0) heq.symm
  · exact hhc h1
  · exact absurd rfl hne
  · intro heq; exact hhn h1 (heq ▸ h1) heq
  · exact hcc h1
  · intro heq; exact hhn (heq ▸ h1) h1 heq.symm
  · exact absurd rfl hne

/-- A key tagged with one scope is routed to the reference of the view for
that scope. -/
theorem routed_of_tagged (H : serf_h) (cfg : serf_config_t) (key : Nat) (tag : ScopeTag)
    (ht : tagged H key tag) : routed H cfg key = scope_ref cfg tag := by
  unfold routed
  cases tag
  · rw [if_pos ht.1]; rfl
  · rw [if_neg (not_not.mpr ht.1), if_pos ht.2.1]; rfl
  · rw [if_neg (not_not.mpr ht.1), if_neg (not_not.mpr ht.2.1)]; rfl

/-- The table that `serf_set_config_string` writes: the routed namespace gets
the stored pointer under the key. -/
theorem serf_set_config_string_target (H : serf_h) (m : Memory) (config : serf_config_t)
    (key value copy_flags : Nat) (hv : m.valid_hash (routed H config key)) :
    (serf_set_config_string H m config key value copy_flags).2.hash (routed H config key) =
      hash_insert (m.hash (routed H config key)) (.key key)
        (if copy_flags &&& H.SERF_CONFIG_COPY_VALUE ≠ 0
          then apr_pstrdup m config.pool value else (m, value)).2 := by
  obtain ⟨c1, _, _⟩ := copied_spec H m config.pool value copy_flags
  have hr : routed H config key ≠ 0 := by have := hv.1; omega
  rw [serf_set_config_string_eq, if_neg hr]
  show (apr_hash_set _ _ _ _).hash _ = _
  rw [apr_hash_set_hash_self _ _ _ _ ⟨hv.1, by rw [c1]; exact hv.2⟩, hash_congr _ _ _ c1]

/-- C11 (scope routing): in a view of a well-formed store, for a key that
carries exactly one scope tag, `serf_set_config_string` and
`serf_get_config_string` use the reference of the view for that scope
(Context: `per_context`, PerHost: `per_host`, PerConnection: `per_conn`).  The
set leaves every table of the memory but that one as it is, in particular the
namespaces of the other two scopes in the view and every other namespace of
the store; when the reference is set, the set returns `APR_SUCCESS` and the
namespace gets the stored pointer under the key; the get reads the entry of
the key in that same namespace. -/
theorem C11_scope_routing (H : serf_h) (m : Memory) (s : serf__config_store_t)
    (cfg : serf_config_t) (key value copy_flags : Nat) (tag : ScopeTag)
    (hwf : WF m s) (hv : IsView m s cfg) (ht : tagged H key tag) :
    routed H cfg key = scope_ref cfg tag ∧
    (∀ p, p ≠ scope_ref cfg tag →
      (serf_set_config_string H m cfg key value copy_flags).2.hash p = m.hash p) ∧
    (∀ tag2, tag2 ≠ tag →
      (serf_set_config_string H m cfg key value copy_flags).2.hash (scope_ref cfg tag2) =
        m.hash (scope_ref cfg tag2)) ∧
    (∀ p, is_namespace m s p → p ≠ scope_ref cfg tag →
      (serf_set_config_string H m cfg key value copy_flags).2.hash p = m.hash p) ∧
    (scope_ref cfg tag ≠ 0 →
      (serf_set_config_string H m cfg key value copy_flags).1 = APR_SUCCESS ∧
      (serf_set_config_string H m cfg key value copy_flags).2.hash (scope_ref cfg tag) =
        hash_insert (m.hash (scope_ref cfg tag)) (.key key)
          (if copy_flags &&& H.SERF_CONFIG_COPY_VALUE ≠ 0
            then apr_pstrdup m cfg.pool value else (m, value)).2) ∧
    serf_get_config_string H m cfg key =
      (if scope_ref cfg tag = 0 then (APR_EINVAL, 0)
       else (APR_SUCCESS, hash_find (m.hash (scope_ref cfg tag)) (.key key))) := by
  have hr := routed_of_tagged H cfg key tag ht
  obtain ⟨_, f2, _⟩ := serf_set_config_string_frame H m cfg key value copy_flags
  rw [hr] at f2
  refine ⟨hr, f2, ?_, fun p _ hp => f2 p hp, ?_, ?_⟩
  · intro tag2 hne
    by_cases h0 : scope_ref cfg tag2 = 0
    · rw [h0]; rfl
    · exact f2 _ (scope_ref_injective m s cfg hwf hv tag2 tag hne h0)
  · intro hset
    have hval := (routed_of_IsView H m s cfg key hwf hv (by rw [hr]; exact hset)).1
    have e := serf_set_config_string_target H m cfg key value copy_flags hval
    rw [hr] at e
    refine ⟨?_, e⟩
    rw [serf_set_config_string_eq, hr, if_neg hset]
  · rw [serf_get_config_string_eq, hr]

/-- C11 at the example store: the key `serf_config_host_port`, tagged PerHost,
on the view of `connA`. -/
theorem C11_scope_routing_witness :
    WF m1A ctx0.config_store ∧ IsView m1A ctx0.config_store cfgA ∧
    tagged H0 (serf_config_host_port H0) .PerHost ∧
    routed H0 cfgA (serf_config_host_port H0) = scope_ref cfgA .PerHost ∧
    (∀ p, p ≠ scope_ref cfgA .PerHost →
      (serf_set_config_string H0 m1A cfgA (serf_config_host_port H0) 1 2).2.hash p =
        m1A.hash p) ∧
    (∀ tag2, tag2 ≠ ScopeTag.PerHost →
      (serf_set_config_string H0 m1A cfgA (serf_config_host_port H0) 1 2).2.hash
        (scope_ref cfgA tag2) = m1A.hash (scope_ref cfgA tag2)) ∧
    (∀ p, is_namespace m1A ctx0.config_store p → p ≠ scope_ref cfgA .PerHost →
      (serf_set_config_string H0 m1A cfgA (serf_config_host_port H0) 1 2).2.hash p =
        m1A.hash p) ∧
    (scope_ref cfgA .PerHost ≠ 0 →
      (serf_set_config_string H0 m1A cfgA (serf_config_host_port H0) 1 2).1 = APR_SUCCESS ∧
      (serf_set_config_string H0 m1A cfgA (serf_config_host_port H0) 1 2).2.hash
          (scope_ref cfgA .PerHost) =
        hash_insert (m1A.hash (scope_ref cfgA .PerHost)) (.key (serf_config_host_port H0))
          (if 2 &&& H0.SERF_CONFIG_COPY_VALUE ≠ 0
            then apr_pstrdup m1A cfgA.pool 1 else (m1A, 1)).2) ∧
    serf_get_config_string H0 m1A cfgA (serf_config_host_port H0) =
      (if scope_ref cfgA .PerHost = 0 then (APR_EINVAL, 0)
       else (APR_SUCCESS,
         hash_find (m1A.hash (scope_ref cfgA .PerHost)) (.key (serf_config_host_port H0)))) :=
  ⟨by decide, by decide, by decide,
   C11_scope_routing H0 m1A ctx0.config_store cfgA (serf_config_host_port H0) 1 2 .PerHost
     (by decide) (by decide) (by decide)⟩


theorem hash_count_remove (t : apr_hash_t) (k : apr_hash_key) :
    hash_count (hash_remove t k) k = 0 := by
  induction t with
  | nil => rfl
  | cons e t ih =>
    obtain ⟨k1, v1⟩ := e
    by_cases h : k1 = k
    · subst h; rw [hash_remove_cons_self]; exact ih
    · rw [hash_remove_cons_ne t k1 k v1 h]
      unfold hash_count at ih ⊢
      simp only [List.filter_cons, h, decide_False, Bool.false_eq_true, if_false]
      exact ih

/-- After `apr_hash_set` with a value that is not `NULL` the table has exactly
one entry under the key. -/
theorem hash_count_insert (t : apr_hash_t) (k : apr_hash_key) (v : Nat) (hv : v ≠ 0) :
    hash_count (hash_insert t k v) k = 1 := by
  unfold hash_insert
  rw [if_neg hv]
  have h := hash_count_remove t k
  unfold hash_count at h ⊢
  simp only [List.filter_cons, decide_True, if_true, List.length_cons, h]

theorem apr_hash_set_invalid (m : Memory) (ht : Nat) (k : apr_hash_key) (v : Nat)
    (h : ¬ m.valid_hash ht) : apr_hash_set m ht k v = m := by
  cases ht with
  | zero => rfl
  | succ q =>
    have hq : m.hashes.length ≤ q := by
      by_contra hcon
      exact h ⟨Nat.succ_pos _, by omega⟩
    unfold apr_hash_set
    simp only [List.set_eq_of_length_le hq]

/-- The call `apr_hash_set` leaves the values under every other key of every
table as they are. -/
theorem apr_hash_set_find_ne (m : Memory) (ht p : Nat) (k k2 : apr_hash_key) (v : Nat)
    (hne : k2 ≠ k) :
    hash_find ((apr_hash_set m ht k v).hash p) k2 = hash_find (m.hash p) k2 := by
  by_cases hp : p = ht
  · subst hp
    by_cases hv : m.valid_hash p
    · rw [apr_hash_set_hash_self m p k v hv, hash_find_insert_ne _ _ _ _ hne]
    · rw [apr_hash_set_invalid m p k v hv]
  · rw [apr_hash_set_hash_other m ht p k v hp]

/-- The function `serf_set_config_string` leaves the values under every other
key of every table as they are. -/
theorem serf_set_config_string_find_ne (H : serf_h) (m : Memory) (cfg : serf_config_t)
    (key value copy_flags p : Nat) (k2 : apr_hash_key) (hne : k2 ≠ .key key) :
    hash_find ((serf_set_config_string H m cfg key value copy_flags).2.hash p) k2 =
      hash_find (m.hash p) k2 := by
  obtain ⟨c1, _, _⟩ := copied_spec H m cfg.pool value copy_flags
  rw [serf_set_config_string_eq]
  by_cases hr : routed H cfg key = 0
  · rw [if_pos hr]
    show hash_find (Memory.hash _ p) k2 = _
    rw [hash_congr _ _ p c1]
  · rw [if_neg hr]
    show hash_find ((apr_hash_set _ _ _ _).hash p) k2 = _
    rw [apr_hash_set_find_ne _ _ _ _ _ _ hne, hash_congr _ _ p c1]

/-- C12 (overwrite): in a view of a well-formed store, for a key whose routed
namespace is set and strings `v1` and `v2` of the caller,
`serf_set_config_string` of `v1` and then of `v2` under the key both return
`APR_SUCCESS`, the routed namespace then has exactly one entry under the key,
and `serf_get_config_string` returns `APR_SUCCESS` and a pointer to `v2`. -/
theorem C12_overwrite (H : serf_h) (m : Memory) (s : serf__config_store_t)
    (cfg : serf_config_t) (key value1 flags1 value2 flags2 : Nat) (v1 v2 : String)
    (hwf : WF m s) (hview : IsView m s cfg) (hr : routed H cfg key ≠ 0)
    (h1 : m.deref value1 = some v1) (h2 : m.deref value2 = some v2) :
    (serf_set_config_string H m cfg key value1 flags1).1 = APR_SUCCESS ∧
    (serf_set_config_string H (serf_set_config_string H m cfg key value1 flags1).2
      cfg key value2 flags2).1 = APR_SUCCESS ∧
    hash_count
      ((serf_set_config_string H (serf_set_config_string H m cfg key value1 flags1).2
        cfg key value2 flags2).2.hash (routed H cfg key)) (.key key) = 1 ∧
    (serf_get_config_string H
      (serf_set_config_string H (serf_set_config_string H m cfg key value1 flags1).2
        cfg key value2 flags2).2 cfg key).1 = APR_SUCCESS ∧
    (serf_set_config_string H (serf_set_config_string H m cfg key value1 flags1).2
        cfg key value2 flags2).2.deref
      (serf_get_config_string H
        (serf_set_config_string H (serf_set_config_string H m cfg key value1 flags1).2
          cfg key value2 flags2).2 cfg key).2 = some v2 := by
  have hval := (routed_of_IsView H m s cfg key hwf hview hr).1
  obtain ⟨f1, _, f3⟩ := serf_set_config_string_frame H m cfg key value1 flags1
  have hval2 : (serf_set_config_string H m cfg key value1 flags1).2.valid_hash
      (routed H cfg key) := ⟨hval.1, by rw [f1]; exact hval.2⟩
  have h2b := f3 value2 v2 h2
  obtain ⟨a1, _, _⟩ := set_then_get H m cfg cfg key value1 flags1 v1 hval rfl h1
  obtain ⟨b1, b2, b3⟩ := set_then_get H _ cfg cfg key value2 flags2 v2 hval2 rfl h2b
  refine ⟨a1, b1, ?_, b2, b3⟩
  rw [serf_set_config_string_target H _ cfg key value2 flags2 hval2]
  exact hash_count_insert _ _ _
    ((copied_spec H _ cfg.pool value2 flags2).2.2 v2 h2b).1

/-- C12 at the example store: the key `serf_config_host_port` is set to
`"443"` and then to `"v1"` through the view of `connA`. -/
theorem C12_overwrite_witness :
    (serf_set_config_string H0 m1A cfgA (serf_config_host_port H0) 1 2).1 = APR_SUCCESS ∧
    (serf_set_config_string H0
      (serf_set_config_string H0 m1A cfgA (serf_config_host_port H0) 1 2).2
      cfgA (serf_config_host_port H0) 2 2).1 = APR_SUCCESS ∧
    hash_count
      ((serf_set_config_string H0
        (serf_set_config_string H0 m1A cfgA (serf_config_host_port H0) 1 2).2
        cfgA (serf_config_host_port H0) 2 2).2.hash
          (routed H0 cfgA (serf_config_host_port H0)))
      (.key (serf_config_host_port H0)) = 1 ∧
    (serf_get_config_string H0
      (serf_set_config_string H0
        (serf_set_config_string H0 m1A cfgA (serf_config_host_port H0) 1 2).2
        cfgA (serf_config_host_port H0) 2 2).2 cfgA (serf_config_host_port H0)).1 =
      APR_SUCCESS ∧
    (serf_set_config_string H0
        (serf_set_config_string H0 m1A cfgA (serf_config_host_port H0) 1 2).2
        cfgA (serf_config_host_port H0) 2 2).2.deref
      (serf_get_config_string H0
        (serf_set_config_string H0
          (serf_set_config_string H0 m1A cfgA (serf_config_host_port H0) 1 2).2
          cfgA (serf_config_host_port H0) 2 2).2 cfgA (serf_config_host_port H0)).2 =
      some "v1" :=
  C12_overwrite H0 m1A ctx0.config_store cfgA (serf_config_host_port H0) 1 2 2 2 "443" "v1"
    (by decide) (by decide) (by decide) (by decide) (by decide)

/-- C13 (key distinctness): for every two key descriptors with different key
integers, whatever their scope bits, and every two views,
`serf_set_config_string` under the one key leaves what
`serf_get_config_string` returns for the other key as it is: the same status,
the same pointer, and the same string behind the pointer. -/
theorem C13_key_distinctness (H : serf_h) (m : Memory) (cfg cfg2 : serf_config_t)
    (key1 key2 value copy_flags : Nat) (hne : key1 ≠ key2) :
    serf_get_config_string H (serf_set_config_string H m cfg key1 value copy_flags).2
      cfg2 key2 = serf_get_config_string H m cfg2 key2 ∧
    ∀ w, m.deref (serf_get_config_string H m cfg2 key2).2 = some w →
      (serf_set_config_string H m cfg key1 value copy_flags).2.deref
        (serf_get_config_string H m cfg2 key2).2 = some w := by
  refine ⟨?_, fun w hw => (serf_set_config_string_frame H m cfg key1 value copy_flags).2.2 _ w hw⟩
  rw [serf_get_config_string_eq, serf_get_config_string_eq,
    serf_set_config_string_find_ne H m cfg key1 value copy_flags _ (.key key2)
      (fun h => hne (apr_hash_key.key.inj h).symm)]

/-- C13 at the example store: after `serf_config_host_port` was set to `"443"`,
setting `serf_config_host_name` leaves what is read for
`serf_config_host_port`. -/
theorem C13_key_distinctness_witness :
    serf_config_host_name H0 ≠ serf_config_host_port H0 ∧
    serf_get_config_string H0
      (serf_set_config_string H0
        (serf_set_config_string H0 m1A cfgA (serf_config_host_port H0) 1 2).2
        cfgA (serf_config_host_name H0) 2 2).2 cfgA (serf_config_host_port H0) =
      serf_get_config_string H0
        (serf_set_config_string H0 m1A cfgA (serf_config_host_port H0) 1 2).2
        cfgA (serf_config_host_port H0) ∧
    ∀ w, (serf_set_config_string H0 m1A cfgA (serf_config_host_port H0) 1 2).2.deref
        (serf_get_config_string H0
          (serf_set_config_string H0 m1A cfgA (serf_config_host_port H0) 1 2).2
          cfgA (serf_config_host_port H0)).2 = some w →
      (serf_set_config_string H0
        (serf_set_config_string H0 m1A cfgA (serf_config_host_port H0) 1 2).2
        cfgA (serf_config_host_name H0) 2 2).2.deref
        (serf_get_config_string H0
          (serf_set_config_string H0 m1A cfgA (serf_config_host_port H0) 1 2).2
          cfgA (serf_config_host_port H0)).2 = some w :=
  ⟨by decide,
   C13_key_distinctness H0 (serf_set_config_string H0 m1A cfgA (serf_config_host_port H0) 1 2).2
     cfgA cfgA (serf_config_host_name H0) (serf_config_host_port H0) 2 2 (by decide)⟩


/-- The claim C15 fails at the example store: with the key
`serf_config_host_port` set to `"443"` in the view of `connA`,
`serf_remove_config_value` does not return `APR_SUCCESS`, and
`serf_get_config_string` afterwards does not return `(APR_SUCCESS, NULL)` but
a pointer to `"443"`. -/
theorem C15_removal_counterexample :
    routed H0 cfgA (serf_config_host_port H0) ≠ 0 ∧
    serf_remove_config_value cfgA (serf_config_host_port H0) ≠ APR_SUCCESS ∧
    serf_get_config_string H0
      (Client.step H0 ctx0
        { mem := (serf_set_config_string H0 m1A cfgA (serf_config_host_port H0) 1 2).2,
          views := [cfgA] }
        (.remove_value 0 (serf_config_host_port H0))).mem
      cfgA (serf_config_host_port H0) ≠ (APR_SUCCESS, 0) ∧
    (Client.step H0 ctx0
        { mem := (serf_set_config_string H0 m1A cfgA (serf_config_host_port H0) 1 2).2,
          views := [cfgA] }
        (.remove_value 0 (serf_config_host_port H0))).mem.deref
      (serf_get_config_string H0
        (Client.step H0 ctx0
          { mem := (serf_set_config_string H0 m1A cfgA (serf_config_host_port H0) 1 2).2,
            views := [cfgA] }
          (.remove_value 0 (serf_config_host_port H0))).mem
        cfgA (serf_config_host_port H0)).2 = some "443" := by
  decide

/-- C15 as amended (the removal is not implemented): for every view and key,
whether or not the key has an entry, `serf_remove_config_value` returns
`APR_ENOTIMPL` and leaves the memory and the views of the client as they are,
so that `serf_get_config_string` afterwards returns for that key and for every
other key, through every view, what it returned before. -/
theorem C15_removal_not_implemented (H : serf_h) (ctx : serf_context_t) (cl : Client)
    (cfg : serf_config_t) (view key : Nat) :
    serf_remove_config_value cfg key = APR_ENOTIMPL ∧
    cl.step H ctx (.remove_value view key) = cl ∧
    ∀ cfg2 key2,
      serf_get_config_string H (cl.step H ctx (.remove_value view key)).mem cfg2 key2 =
        serf_get_config_string H cl.mem cfg2 key2 :=
  ⟨rfl, rfl, fun _ _ => rfl⟩


/-- The store that `serf__init_config_store` sets up: three new, empty
tables. -/
theorem serf__init_config_store_tables (m : Memory) (ctx : serf_context_t) :
    (serf__init_config_store m ctx).2.2.hash
      (serf__init_config_store m ctx).2.1.config_store.per_context = [] ∧
    (serf__init_config_store m ctx).2.2.hash
      (serf__init_config_store m ctx).2.1.config_store.per_host = [] ∧
    (serf__init_config_store m ctx).2.2.hash
      (serf__init_config_store m ctx).2.1.config_store.per_conn = [] := by
  have l1 : (apr_hash_make m ctx.pool).1.hashes.length = m.hashes.length + 1 :=
    apr_hash_make_length m ctx.pool
  have l2 : (apr_hash_make (apr_hash_make m ctx.pool).1 ctx.pool).1.hashes.length =
      m.hashes.length + 2 := by
    rw [apr_hash_make_length, l1]
  have n1 := apr_hash_make_hash_new m ctx.pool
  have n2 := apr_hash_make_hash_new (apr_hash_make m ctx.pool).1 ctx.pool
  have n3 := apr_hash_make_hash_new (apr_hash_make (apr_hash_make m ctx.pool).1 ctx.pool).1
    ctx.pool
  rw [l1] at n2
  rw [l2] at n3
  refine ⟨?_, ?_, ?_⟩
  · show (apr_hash_make (apr_hash_make (apr_hash_make m ctx.pool).1 ctx.pool).1 ctx.pool).1.hash
      (m.hashes.length + 1) = []
    rw [apr_hash_make_hash_old _ _ _ (by rw [l2]; omega),
      apr_hash_make_hash_old _ _ _ (by rw [l1]), n1]
  · show (apr_hash_make (apr_hash_make (apr_hash_make m ctx.pool).1 ctx.pool).1 ctx.pool).1.hash
      ((apr_hash_make m ctx.pool).1.hashes.length + 1) = []
    rw [l1, apr_hash_make_hash_old _ _ _ (by rw [l2]), n2]
  · show (apr_hash_make (apr_hash_make (apr_hash_make m ctx.pool).1 ctx.pool).1 ctx.pool).1.hash
      ((apr_hash_make (apr_hash_make m ctx.pool).1 ctx.pool).1.hashes.length + 1) = []
    rw [l2, n3]

/-- C16 fails on every input: `serf__init_config_store` sets the store up, a
well-formed store with an empty context namespace and empty host and
connection indices, and then returns `APR_ENOTIMPL`, which is not
`APR_SUCCESS`. -/
theorem C16_init_reports_not_implemented (m : Memory) (ctx : serf_context_t) :
    (serf__init_config_store m ctx).1 = APR_ENOTIMPL ∧
    (serf__init_config_store m ctx).1 ≠ APR_SUCCESS ∧
    WF (serf__init_config_store m ctx).2.2 (serf__init_config_store m ctx).2.1.config_store ∧
    (serf__init_config_store m ctx).2.2.hash
      (serf__init_config_store m ctx).2.1.config_store.per_context = [] ∧
    (serf__init_config_store m ctx).2.2.hash
      (serf__init_config_store m ctx).2.1.config_store.per_host = [] ∧
    (serf__init_config_store m ctx).2.2.hash
      (serf__init_config_store m ctx).2.1.config_store.per_conn = [] :=
  ⟨rfl, fun h => (by decide : APR_ENOTIMPL ≠ APR_SUCCESS) h, WF_init m ctx,
    serf__init_config_store_tables m ctx⟩

/-- The function `serf__init_config_store` evaluated on the empty memory: it
returns `APR_ENOTIMPL` and the store of the examples. -/
theorem serf__init_config_store_example :
    serf__init_config_store { hashes := [], strings := [] }
        { pool := 1, config_store := { pool := 0, per_context := 0, per_host := 0,
                                       per_conn := 0 } } =
      (APR_ENOTIMPL, ctx0, { hashes := [[], [], []], strings := [] }) := by
  decide

/-- A key with none of the three scope tags is routed to the connection
reference of the view. -/
theorem routed_of_untagged (H : serf_h) (cfg : serf_config_t) (key : Nat)
    (hu : untagged H key) : routed H cfg key = cfg.per_conn := by
  unfold routed
  rw [if_neg (not_not.mpr hu.1), if_neg (not_not.mpr hu.2.1)]

/-- The claim C17 fails at the example store: the key `1` has none of the
three scope tags, and through the view of `connA`,
`serf_set_config_string` stores a pointer to `"v1"` in the connection
namespace of the view and `serf_get_config_string` reads it there. -/
theorem C17_unmarked_key_counterexample :
    untagged H0 1 ∧
    (serf_set_config_string H0 m1A cfgA 1 2 2).1 = APR_SUCCESS ∧
    (serf_set_config_string H0 m1A cfgA 1 2 2).2.hash cfgA.per_conn ≠ m1A.hash cfgA.per_conn ∧
    (serf_set_config_string H0 m1A cfgA 1 2 2).2.hash cfgA.per_conn = [(.key 1, 5)] ∧
    serf_get_config_string H0 (serf_set_config_string H0 m1A cfgA 1 2 2).2 cfgA 1 =
      (APR_SUCCESS, 5) ∧
    (serf_set_config_string H0 m1A cfgA 1 2 2).2.deref 5 = some "v1" := by
  decide

/-- C17 as amended (unmarked keys go to the connection scope): for a key with
none of the three scope tags set, in a view of a well-formed store,
`serf_set_config_string` and `serf_get_config_string` use the connection
reference of the view.  When it is unset, both return `APR_EINVAL`, nothing is
stored and `NULL` is read.  When it is set, the set returns `APR_SUCCESS`,
enters the stored pointer under the key in the connection namespace and leaves
every other table as it is, and the get returns `APR_SUCCESS` and the entry of
the key in the connection namespace. -/
theorem C17_unmarked_key_connection_scope (H : serf_h) (m : Memory)
    (s : serf__config_store_t) (cfg : serf_config_t) (key value copy_flags : Nat)
    (hwf : WF m s) (hv : IsView m s cfg) (hu : untagged H key) :
    routed H cfg key = cfg.per_conn ∧
    (cfg.per_conn = 0 →
      (serf_set_config_string H m cfg key value copy_flags).1 = APR_EINVAL ∧
      (serf_set_config_string H m cfg key value copy_flags).2.hashes = m.hashes ∧
      serf_get_config_string H m cfg key = (APR_EINVAL, 0)) ∧
    (cfg.per_conn ≠ 0 →
      (serf_set_config_string H m cfg key value copy_flags).1 = APR_SUCCESS ∧
      (serf_set_config_string H m cfg key value copy_flags).2.hash cfg.per_conn =
        hash_insert (m.hash cfg.per_conn) (.key key)
          (if copy_flags &&& H.SERF_CONFIG_COPY_VALUE ≠ 0
            then apr_pstrdup m cfg.pool value else (m, value)).2 ∧
      (∀ p, p ≠ cfg.per_conn →
        (serf_set_config_string H m cfg key value copy_flags).2.hash p = m.hash p) ∧
      serf_get_config_string H m cfg key =
        (APR_SUCCESS, hash_find (m.hash cfg.per_conn) (.key key))) := by
  have hr := routed_of_untagged H cfg key hu
  refine ⟨hr, ?_, ?_⟩
  · intro h0
    have hr0 : routed H cfg key = 0 := by rw [hr]; exact h0
    rw [serf_set_config_string_eq, serf_get_config_string_eq, if_pos hr0, if_pos hr0]
    exact ⟨rfl, (copied_spec H m cfg.pool value copy_flags).1, rfl⟩
  · intro h1
    have hr1 : routed H cfg key ≠ 0 := by rw [hr]; exact h1
    have hval := (routed_of_IsView H m s cfg key hwf hv hr1).1
    have e := serf_set_config_string_target H m cfg key value copy_flags hval
    obtain ⟨_, f2, _⟩ := serf_set_config_string_frame H m cfg key value copy_flags
    rw [hr] at e f2
    refine ⟨?_, e, f2, ?_⟩
    · rw [serf_set_config_string_eq, if_neg hr1]
    · rw [serf_get_config_string_eq, if_neg hr1, hr]

/-- C17 as amended, at the example store: the key `1` on the view of
`connA`. -/
theorem C17_unmarked_key_connection_scope_witness :
    WF m1A ctx0.config_store ∧ IsView m1A ctx0.config_store cfgA ∧ untagged H0 1 ∧
    routed H0 cfgA 1 = cfgA.per_conn ∧
    (cfgA.per_conn = 0 →
      (serf_set_config_string H0 m1A cfgA 1 2 2).1 = APR_EINVAL ∧
      (serf_set_config_string H0 m1A cfgA 1 2 2).2.hashes = m1A.hashes ∧
      serf_get_config_string H0 m1A cfgA 1 = (APR_EINVAL, 0)) ∧
    (cfgA.per_conn ≠ 0 →
      (serf_set_config_string H0 m1A cfgA 1 2 2).1 = APR_SUCCESS ∧
      (serf_set_config_string H0 m1A cfgA 1 2 2).2.hash cfgA.per_conn =
        hash_insert (m1A.hash cfgA.per_conn) (.key 1)
          (if 2 &&& H0.SERF_CONFIG_COPY_VALUE ≠ 0
            then apr_pstrdup m1A cfgA.pool 2 else (m1A, 2)).2 ∧
      (∀ p, p ≠ cfgA.per_conn →
        (serf_set_config_string H0 m1A cfgA 1 2 2).2.hash p = m1A.hash p) ∧
      serf_get_config_string H0 m1A cfgA 1 =
        (APR_SUCCESS, hash_find (m1A.hash cfgA.per_conn) (.key 1))) :=
  ⟨by decide, by decide, by decide,
   C17_unmarked_key_connection_scope H0 m1A ctx0.config_store cfgA 1 2 2
     (by decide) (by decide) (by decide)⟩

/-- C19 (no InvalidScope with a connection): on a well-formed store, a view
that `serf_get_config_from_store` returned for a connection has all three
namespace references set, and for every key, whatever its scope bits, every
value and all copy flags, `serf_set_config_string` and
`serf_get_config_string` on it return `APR_SUCCESS`, before and after the
set. -/
theorem C19_all_references_set (H : serf_h) (m : Memory) (ctx : serf_context_t)
    (c : serf_connection_t) (out_pool : Nat) (pool_status : apr_status_t)
    (cfg : serf_config_t) (m1 : Memory)
    (hwf : WF m ctx.config_store)
    (hres : serf_get_config_from_store m ctx (some c) out_pool pool_status =
      (APR_SUCCESS, some cfg, m1)) :
    cfg.per_context ≠ 0 ∧ cfg.per_host ≠ 0 ∧ cfg.per_conn ≠ 0 ∧
    ∀ key value copy_flags,
      (serf_set_config_string H m1 cfg key value copy_flags).1 = APR_SUCCESS ∧
      (serf_get_config_string H m1 cfg key).1 = APR_SUCCESS ∧
      (serf_get_config_string H (serf_set_config_string H m1 cfg key value copy_flags).2
        cfg key).1 = APR_SUCCESS := by
  obtain ⟨_, hctx, hc0, hh0, _, _, w, _, _, _, _⟩ :=
    view_of_resolve_some m ctx c out_pool pool_status cfg m1 hwf hres
  have hx0 : cfg.per_context ≠ 0 := by rw [hctx]; have := w.1.1; omega
  refine ⟨hx0, hh0, hc0, fun key value copy_flags => ?_⟩
  have hr : routed H cfg key ≠ 0 := by
    unfold routed
    split
    · exact hx0
    · split
      · exact hh0
      · exact hc0
  refine ⟨?_, ?_, ?_⟩
  · rw [serf_set_config_string_eq, if_neg hr]
  · rw [serf_get_config_string_eq, if_neg hr]
  · rw [serf_get_config_string_eq, if_neg hr]

/-- C19 at the example store, for the view of `connA`. -/
theorem C19_all_references_set_witness :
    cfgA.per_context ≠ 0 ∧ cfgA.per_host ≠ 0 ∧ cfgA.per_conn ≠ 0 ∧
    ∀ key value copy_flags,
      (serf_set_config_string H0 m1A cfgA key value copy_flags).1 = APR_SUCCESS ∧
      (serf_get_config_string H0 m1A cfgA key).1 = APR_SUCCESS ∧
      (serf_get_config_string H0 (serf_set_config_string H0 m1A cfgA key value copy_flags).2
        cfgA key).1 = APR_SUCCESS :=
  C19_all_references_set H0 m0 ctx0 connA 9 APR_SUCCESS cfgA m1A (by decide) (by decide)

/-- C20 (the get is read-only): a call of `serf_get_config_string`, taken with
everything it can reach (`serf_get_config_string_st`), on success or failure
returns the memory it was given, so every namespace of the store with its
entries and every string, and the view it was given, so its three references;
only `*value` is assigned.  The status and `*value` are those of
`serf_get_config_string`, they do not depend on what `*value` held, and a
second get of the same key on what the first left returns the same result.  A
get of a client, and any number of gets in a row, leave the client as it
is. -/
theorem C20_get_read_only (H : serf_h) (ctx : serf_context_t) (m : Memory)
    (config : serf_config_t) (key value : Nat) (cl : Client) (view n : Nat) :
    (serf_get_config_string_st H m config key value).2.1 = m ∧
    (serf_get_config_string_st H m config key value).2.2.1 = config ∧
    ((serf_get_config_string_st H m config key value).1,
      (serf_get_config_string_st H m config key value).2.2.2) =
      serf_get_config_string H m config key ∧
    serf_get_config_string_st H
      (serf_get_config_string_st H m config key value).2.1
      (serf_get_config_string_st H m config key value).2.2.1 key
      (serf_get_config_string_st H m config key value).2.2.2 =
      serf_get_config_string_st H m config key value ∧
    cl.step H ctx (.get view key) = cl ∧
    cl.run H ctx (List.replicate n (.get view key)) = cl := by
  obtain ⟨a, b⟩ := serf_get_config_string_st_frame H m config key value
  refine ⟨a, b, ?_, ?_, Client.step_get H ctx cl view key, ?_⟩
  · rw [serf_get_config_string_st_eq, serf_get_config_string_eq]
    split <;> rfl
  · rw [a, b, serf_get_config_string_st_eq, serf_get_config_string_st_eq]
  · induction n with
    | zero => rfl
    | succ n ih =>
      rw [List.replicate_succ]
      show (cl.step H ctx (.get view key)).run H ctx (List.replicate n (.get view key)) = cl
      rw [Client.step_get]
      exact ih

/-- The state-passing get evaluated at the example store: with
`serf_config_host_port` set to `"443"` through the view of `connA`, a get
returns the stored pointer and the memory and the view it was given; on the
view without connection it returns `APR_EINVAL` and `NULL`, and the memory and
the view it was given. -/
theorem serf_get_config_string_st_example :
    serf_get_config_string_st H0
      (serf_set_config_string H0 m1A cfgA (serf_config_host_port H0) 1 2).2
      cfgA (serf_config_host_port H0) 7 =
      (APR_SUCCESS, (serf_set_config_string H0 m1A cfgA (serf_config_host_port H0) 1 2).2,
        cfgA, 5) ∧
    serf_get_config_string_st H0 m1A cfgN (serf_config_host_port H0) 7 =
      (APR_EINVAL, m1A, cfgN, 0) := by
  decide

theorem apr_pool_destroy_hash (m : Memory) (pool p : Nat) :
    (apr_pool_destroy m pool).hash p = m.hash p :=
  hash_congr m _ p rfl

theorem overwrite_hashes (m : Memory) (p : Nat) (s : String) :
    (m.overwrite p s).hashes = m.hashes := by
  unfold Memory.overwrite
  cases p with
  | zero => rfl
  | succ q =>
    simp only
    cases m.strings.get? q <;> rfl

/-- A string in storage of a pool is gone when the pool is destroyed. -/
theorem apr_pool_destroy_deref_owned (m : Memory) (pool p : Nat)
    (h : m.owner p = some pool) : (apr_pool_destroy m pool).deref p = none := by
  cases p with
  | zero => rfl
  | succ q =>
    simp only [Memory.owner, List.get?_eq_getElem?, Option.map_eq_some'] at h
    obtain ⟨c, hc, hp⟩ := h
    simp only [Memory.deref, apr_pool_destroy, List.get?_eq_getElem?, List.getElem?_map, hc,
      Option.map_some', hp, if_true, Option.some_bind]

/-- A string in storage of another pool stays when a pool is destroyed. -/
theorem apr_pool_destroy_deref_other (m : Memory) (pool p : Nat)
    (h : m.owner p ≠ some pool) : (apr_pool_destroy m pool).deref p = m.deref p := by
  cases p with
  | zero => rfl
  | succ q =>
    simp only [Memory.owner, List.get?_eq_getElem?] at h
    simp only [Memory.deref, apr_pool_destroy, List.get?_eq_getElem?, List.getElem?_map]
    cases hc : m.strings[q]? with
    | none => rfl
    | some c =>
      rw [hc] at h
      have hne : c.1 ≠ pool := fun e => h (by simp [e])
      simp only [Option.map_some', if_neg hne]

/-- Overwriting one buffer leaves the strings behind all other pointers. -/
theorem overwrite_deref_other (m : Memory) (p q : Nat) (s : String) (h : q ≠ p) :
    (m.overwrite p s).deref q = m.deref q := by
  unfold Memory.overwrite
  cases p with
  | zero => rfl
  | succ a =>
    simp only
    cases hc : m.strings.get? a with
    | none => rfl
    | some c =>
      cases q with
      | zero => rfl
      | succ b =>
        have hne : a ≠ b := fun e => h (by rw [e])
        simp only [Memory.deref, List.get?_eq_getElem?, List.getElem?_set_ne hne]

theorem deref_le_length (m : Memory) (p : Nat) (v : String) (h : m.deref p = some v) :
    p ≤ m.strings.length := by
  cases p with
  | zero => exact Nat.zero_le _
  | succ q =>
    simp only [Memory.deref, List.get?_eq_getElem?, Option.bind_eq_some] at h
    obtain ⟨a, ha, _⟩ := h
    by_contra hcon
    rw [List.getElem?_eq_none (by omega)] at ha
    exact absurd ha (by simp)

/-- The pointer that `apr_pstrdup` returns for a string is new. -/
theorem apr_pstrdup_ptr (m : Memory) (pool s : Nat) (v : String) (h : m.deref s = some v) :
    (apr_pstrdup m pool s).2 = m.strings.length + 1 := by
  unfold apr_pstrdup
  rw [h]

theorem apr_hash_set_owner (m : Memory) (ht : Nat) (k : apr_hash_key) (v p : Nat) :
    (apr_hash_set m ht k v).owner p = m.owner p := by
  cases p with
  | zero => rfl
  | succ q => simp [Memory.owner, apr_hash_set_strings]

/-- What holds of the copy semantics: with the flag `SERF_CONFIG_COPY_VALUE`,
`serf_set_config_string` of a string stores a pointer that is not the pointer
of the caller, to a duplicate in storage of the pool of the view; overwriting
the buffer of the caller afterwards changes neither the pointer that
`serf_get_config_string` returns nor the string behind it; destroying the pool
of the view leaves the pointer in the namespace and nothing behind it. -/
theorem copy_stores_duplicate (H : serf_h) (m : Memory) (cfg : serf_config_t)
    (key value copy_flags : Nat) (v : String)
    (hc : copy_flags &&& H.SERF_CONFIG_COPY_VALUE ≠ 0)
    (hv : m.valid_hash (routed H cfg key)) (hs : m.deref value = some v) :
    serf_get_config_string H (serf_set_config_string H m cfg key value copy_flags).2 cfg key =
      (APR_SUCCESS, m.strings.length + 1) ∧
    m.strings.length + 1 ≠ value ∧
    (serf_set_config_string H m cfg key value copy_flags).2.owner (m.strings.length + 1) =
      some cfg.pool ∧
    (serf_set_config_string H m cfg key value copy_flags).2.deref (m.strings.length + 1) =
      some v ∧
    (∀ s,
      serf_get_config_string H
        ((serf_set_config_string H m cfg key value copy_flags).2.overwrite value s) cfg key =
        (APR_SUCCESS, m.strings.length + 1) ∧
      ((serf_set_config_string H m cfg key value copy_flags).2.overwrite value s).deref
        (m.strings.length + 1) = some v) ∧
    serf_get_config_string H
      (apr_pool_destroy (serf_set_config_string H m cfg key value copy_flags).2 cfg.pool)
      cfg key = (APR_SUCCESS, m.strings.length + 1) ∧
    (apr_pool_destroy (serf_set_config_string H m cfg key value copy_flags).2 cfg.pool).deref
      (m.strings.length + 1) = none := by
  have hr : routed H cfg key ≠ 0 := by have := hv.1; omega
  have hne : m.strings.length + 1 ≠ value := by
    have := deref_le_length m value v hs; omega
  have hp := apr_pstrdup_ptr m cfg.pool value v hs
  have hh := apr_pstrdup_hashes m cfg.pool value
  obtain ⟨_, hd, ho⟩ := apr_pstrdup_deref_new m cfg.pool value v hs
  rw [hp] at hd ho
  have hset : serf_set_config_string H m cfg key value copy_flags =
      (APR_SUCCESS, apr_hash_set (apr_pstrdup m cfg.pool value).1 (routed H cfg key) (.key key)
        (m.strings.length + 1)) := by
    rw [serf_set_config_string_eq, if_neg hr]
    simp only [if_pos hc, hp]
  have hval : (apr_pstrdup m cfg.pool value).1.valid_hash (routed H cfg key) :=
    ⟨hv.1, by rw [hh]; exact hv.2⟩
  have hfind : hash_find ((apr_hash_set (apr_pstrdup m cfg.pool value).1 (routed H cfg key)
      (.key key) (m.strings.length + 1)).hash (routed H cfg key)) (.key key) =
      m.strings.length + 1 := by
    rw [apr_hash_set_hash_self _ _ _ _ hval, hash_find_insert_self]
  have hget : serf_get_config_string H (serf_set_config_string H m cfg key value copy_flags).2
      cfg key = (APR_SUCCESS, m.strings.length + 1) := by
    rw [serf_get_config_string_eq, if_neg hr, hset, hfind]
  have hderef : (serf_set_config_string H m cfg key value copy_flags).2.deref
      (m.strings.length + 1) = some v := by
    rw [hset]
    show (apr_hash_set _ _ _ _).deref _ = _
    rw [apr_hash_set_deref]; exact hd
  have howner : (serf_set_config_string H m cfg key value copy_flags).2.owner
      (m.strings.length + 1) = some cfg.pool := by
    rw [hset]
    show (apr_hash_set _ _ _ _).owner _ = _
    rw [apr_hash_set_owner]; exact ho
  refine ⟨hget, hne, howner, hderef, fun s => ⟨?_, ?_⟩, ?_, ?_⟩
  · rw [serf_get_config_string_eq, if_neg hr,
      hash_congr _ _ _ (overwrite_hashes _ value s)]
    rw [serf_get_config_string_eq, if_neg hr] at hget
    exact hget
  · rw [overwrite_deref_other _ value _ s hne]; exact hderef
  · rw [serf_get_config_string_eq, if_neg hr, apr_pool_destroy_hash]
    rw [serf_get_config_string_eq, if_neg hr] at hget
    exact hget
  · exact apr_pool_destroy_deref_owned _ _ _ howner

/-- What holds of the copy semantics: without the flag
`SERF_CONFIG_COPY_VALUE`, `serf_set_config_string` stores the pointer of the
caller itself, and `serf_get_config_string` returns it. -/
theorem no_copy_stores_reference (H : serf_h) (m : Memory) (cfg : serf_config_t)
    (key value copy_flags : Nat)
    (hc : copy_flags &&& H.SERF_CONFIG_COPY_VALUE = 0)
    (hv : m.valid_hash (routed H cfg key)) :
    (serf_set_config_string H m cfg key value copy_flags).2.strings = m.strings ∧
    serf_get_config_string H (serf_set_config_string H m cfg key value copy_flags).2 cfg key =
      (APR_SUCCESS, value) := by
  have hr : routed H cfg key ≠ 0 := by have := hv.1; omega
  have hset : serf_set_config_string H m cfg key value copy_flags =
      (APR_SUCCESS, apr_hash_set m (routed H cfg key) (.key key) value) := by
    rw [serf_set_config_string_eq, if_neg hr]
    simp only [if_neg (not_not.mpr hc)]
  rw [hset]
  refine ⟨apr_hash_set_strings _ _ _ _, ?_⟩
  rw [serf_get_config_string_eq, if_neg hr]
  show (APR_SUCCESS, hash_find ((apr_hash_set _ _ _ _).hash _) _) = _
  rw [apr_hash_set_hash_self _ _ _ _ hv, hash_find_insert_self]

/-- C18 fails at the example store: `serf_set_config_string` with the flag
`SERF_CONFIG_COPY_VALUE` through the view of `connA`, whose pool is `9`,
stores for `serf_config_host_port` a pointer to a duplicate of `"443"` in
storage of the pool `9`, which is not the pool `1` of the store.  Overwriting
the buffer of the caller leaves what `serf_get_config_string` returns, but
once the pool of the view is destroyed, `serf_get_config_string` still returns
`APR_SUCCESS` and that pointer, with no string behind it. -/
theorem C18_copy_in_view_pool :
    2 &&& H0.SERF_CONFIG_COPY_VALUE ≠ 0 ∧
    cfgA.pool = 9 ∧ ctx0.config_store.pool = 1 ∧
    (serf_set_config_string H0 m1A cfgA (serf_config_host_port H0) 1 2).1 = APR_SUCCESS ∧
    serf_get_config_string H0
      (serf_set_config_string H0 m1A cfgA (serf_config_host_port H0) 1 2).2
      cfgA (serf_config_host_port H0) = (APR_SUCCESS, 5) ∧
    (serf_set_config_string H0 m1A cfgA (serf_config_host_port H0) 1 2).2.deref 5 =
      some "443" ∧
    (serf_set_config_string H0 m1A cfgA (serf_config_host_port H0) 1 2).2.owner 5 = some 9 ∧
    ((serf_set_config_string H0 m1A cfgA (serf_config_host_port H0) 1 2).2.overwrite 1
      "80").deref 5 = some "443" ∧
    serf_get_config_string H0
      (apr_pool_destroy (serf_set_config_string H0 m1A cfgA (serf_config_host_port H0) 1 2).2 9)
      cfgA2 (serf_config_host_port H0) = (APR_SUCCESS, 5) ∧
    (apr_pool_destroy (serf_set_config_string H0 m1A cfgA (serf_config_host_port H0) 1 2).2
      9).deref 5 = none := by
  decide


end Serf
